import Mathlib

/-!
Verification development for the grammarkdown checking / resolution subsystem
(src/lib/checker.ts and the core container module).  The definitions below are
a shallow embedding of the TypeScript source: JavaScript objects become Lean
structures, mutable traversals become explicit state passing, and JavaScript
`undefined` becomes `Option` (or, for identifier texts, the empty string, which
shares the falsy behaviour of `undefined` in every guard the source uses).
-/

/-! ## The Dictionary container (core module)

`Dictionary` is a string-keyed container whose prototype is created by
`createEmptyPrototype` (an `Object.create(null)` object), so it inherits no
default members.  We model a JavaScript object as its list of own properties
(insertion ordered, keys unique) together with the enumerable properties
contributed by its prototype chain.  `Dictionary.has` uses
`Object.prototype.hasOwnProperty.call`, `get` guards reads with `has`, and the
enumerating helpers are `for..in` loops filtered by `has`. -/

structure JSDict (T : Type) where
  own : List (String × T)
  protoProps : List (String × T)
deriving Repr

/-- `createEmptyPrototype`: `Object.freeze(Object.create(null))` — an object
with no members at all. -/
def createEmptyPrototype (T : Type) : List (String × T) := []

/-- `new Dictionary()` with no source object: no own properties, and the
prototype installed by `Dictionary.prototype = createEmptyPrototype()`. -/
def JSDict.new (T : Type) : JSDict T := ⟨[], createEmptyPrototype T⟩

/-- Own-property update with JavaScript semantics for string keys: an existing
key keeps its position and is overwritten, a new key is appended. -/
def setOwnProperty {T : Type} (l : List (String × T)) (k : String) (v : T) :
    List (String × T) :=
  match l with
  | [] => [(k, v)]
  | (k', v') :: rest =>
    if k' = k then (k, v) :: rest else (k', v') :: setOwnProperty rest k v

/-- `Object.prototype.hasOwnProperty.call(object, key)`. -/
def JSDict.hasOwnProperty {T : Type} (d : JSDict T) (k : String) : Bool :=
  (d.own.map Prod.fst).contains k

/-- `Dictionary.has(object, key)`. -/
def JSDict.has {T : Type} (d : JSDict T) (k : String) : Bool :=
  d.hasOwnProperty k

/-- A raw property read `object[key]`: own properties first, then the
prototype chain. -/
def JSDict.readProperty {T : Type} (d : JSDict T) (k : String) : Option T :=
  match d.own.lookup k with
  | some v => some v
  | none => d.protoProps.lookup k

/-- `Dictionary.get(object, key)`: `Dictionary.has(object, key) ? object[key]
: undefined`. -/
def JSDict.get {T : Type} (d : JSDict T) (k : String) : Option T :=
  if d.has k then d.readProperty k else none

/-- `Dictionary.set(object, key, value)`: `object[key] = value`. -/
def JSDict.set {T : Type} (d : JSDict T) (k : String) (v : T) : JSDict T :=
  { d with own := setOwnProperty d.own k v }

/-- The keys visited by a `for..in` loop: own enumerable keys, then inherited
enumerable keys that are not shadowed. -/
def JSDict.forInKeys {T : Type} (d : JSDict T) : List String :=
  d.own.map Prod.fst
    ++ (d.protoProps.map Prod.fst).filter
        (fun k => ¬ (d.own.map Prod.fst).contains k)

/-- `Dictionary.keys`: `for..in` filtered by `Dictionary.has`. -/
def JSDict.keys {T : Type} (d : JSDict T) : List String :=
  d.forInKeys.filter (fun k => d.has k)

/-- `Dictionary.values`: the `for..in` loop pushes `Dictionary.get` for every
key passing the `has` guard. -/
def JSDict.values {T : Type} (d : JSDict T) : List T :=
  d.forInKeys.filterMap (fun k => if d.has k then d.readProperty k else none)

/-- `Dictionary.entries`: like `values` but pairing each key with its value.
`Dictionary.forEach` invokes its callback on exactly this list of pairs. -/
def JSDict.entries {T : Type} (d : JSDict T) : List (String × T) :=
  d.forInKeys.filterMap
    (fun k => if d.has k then (d.readProperty k).map (fun v => (k, v)) else none)

/-- A dictionary built from a fresh one by a sequence of explicit `set`
calls. -/
def JSDict.ofSets {T : Type} (l : List (String × T)) : JSDict T :=
  l.foldl (fun d kv => d.set kv.1 kv.2) (JSDict.new T)

/-! Supporting lemmas for the Dictionary theorems. -/

theorem setOwnProperty_keys {T : Type} (l : List (String × T))
    (k : String) (v : T) :
    (setOwnProperty l k v).map Prod.fst =
      if (l.map Prod.fst).contains k then l.map Prod.fst
      else l.map Prod.fst ++ [k] := by
  induction l with
  | nil => simp [setOwnProperty]
  | cons hd tl ih =>
    obtain ⟨hk, hv⟩ := hd
    by_cases h : hk = k
    · subst h
      simp [setOwnProperty]
    · have h2 : (k == hk) = false := by
        rw [beq_eq_false_iff_ne]
        exact fun hh => h hh.symm
      simp only [setOwnProperty, if_neg h, List.map_cons, List.contains_cons, ih, h2,
        Bool.false_or]
      by_cases hc : (tl.map Prod.fst).contains k
      · rw [if_pos hc, if_pos hc]
      · rw [if_neg hc, if_neg hc, List.cons_append]

theorem setOwnProperty_keys_mem {T : Type} (l : List (String × T))
    (k k' : String) (v : T) :
    k' ∈ (setOwnProperty l k v).map Prod.fst ↔
      k' = k ∨ k' ∈ l.map Prod.fst := by
  rw [setOwnProperty_keys]
  by_cases hc : (l.map Prod.fst).contains k
  · rw [if_pos hc]
    constructor
    · exact fun h => Or.inr h
    · rintro (rfl | h)
      · simpa using hc
      · exact h
  · rw [if_neg hc]
    rw [List.mem_append, List.mem_singleton]
    tauto

theorem ofSets_protoProps {T : Type} (l : List (String × T)) :
    (JSDict.ofSets l).protoProps = [] := by
  have h : ∀ (d : JSDict T), d.protoProps = [] →
      (l.foldl (fun d kv => d.set kv.1 kv.2) d).protoProps = [] := by
    induction l with
    | nil => intro d hd; simpa using hd
    | cons hd tl ih =>
      intro d hdp
      exact ih _ (by simpa [JSDict.set] using hdp)
  exact h _ rfl

theorem ofSets_own_keys_mem {T : Type} (l : List (String × T)) (k : String) :
    k ∈ (JSDict.ofSets l).own.map Prod.fst ↔ k ∈ l.map Prod.fst := by
  have h : ∀ (d : JSDict T),
      (k ∈ (l.foldl (fun d kv => d.set kv.1 kv.2) d).own.map Prod.fst ↔
        k ∈ d.own.map Prod.fst ∨ k ∈ l.map Prod.fst) := by
    induction l with
    | nil => intro d; simp
    | cons hd tl ih =>
      intro d
      rw [List.foldl_cons, ih]
      rw [List.map_cons, List.mem_cons]
      show k ∈ (setOwnProperty d.own hd.1 hd.2).map Prod.fst ∨ _ ↔ _
      rw [setOwnProperty_keys_mem]
      tauto
  rw [JSDict.ofSets, h]
  simp [JSDict.new]

theorem lookup_isSome_of_mem_keys {T : Type} (l : List (String × T))
    (k : String) (h : k ∈ l.map Prod.fst) : (l.lookup k).isSome := by
  induction l with
  | nil => simp at h
  | cons hd tl ih =>
    obtain ⟨hk, hv⟩ := hd
    by_cases hkk : k = hk
    · subst hkk
      simp [List.lookup]
    · have h' : ¬ (k == hk) = true := by simp [hkk]
      rw [List.map_cons, List.mem_cons] at h
      rcases h with h | h
      · exact absurd h hkk
      · simpa [List.lookup, h'] using ih h

theorem keys_of_protoProps_nil {T : Type} (d : JSDict T)
    (hp : d.protoProps = []) : d.keys = d.own.map Prod.fst := by
  unfold JSDict.keys JSDict.forInKeys
  rw [hp]
  simp only [List.map_nil, List.filter_nil, List.append_nil]
  apply List.filter_eq_self.mpr
  intro k hk
  simp only [JSDict.has, JSDict.hasOwnProperty]
  simpa using hk

theorem entries_map_fst_of_protoProps_nil {T : Type} (d : JSDict T)
    (hp : d.protoProps = []) : d.entries.map Prod.fst = d.keys := by
  rw [keys_of_protoProps_nil d hp]
  unfold JSDict.entries JSDict.forInKeys
  rw [hp]
  simp only [List.map_nil, List.filter_nil, List.append_nil]
  have main : ∀ (ks : List String), (∀ k ∈ ks, k ∈ d.own.map Prod.fst) →
      (ks.filterMap (fun k => if d.has k then (d.readProperty k).map
        (fun v => (k, v)) else none)).map Prod.fst = ks := by
    intro ks
    induction ks with
    | nil => intro _; simp
    | cons k rest ih =>
      intro hmem
      have hk : k ∈ d.own.map Prod.fst := hmem k (List.mem_cons_self _ _)
      have hhas : d.has k = true := by
        simp only [JSDict.has, JSDict.hasOwnProperty]
        simpa using hk
      have hread : (d.own.lookup k).isSome :=
        lookup_isSome_of_mem_keys d.own k hk
      obtain ⟨v, hv⟩ := Option.isSome_iff_exists.mp hread
      have hrp : d.readProperty k = some v := by
        unfold JSDict.readProperty
        rw [hv]
      rw [List.filterMap_cons]
      simp only [hhas, if_true, hrp, Option.map_some']
      rw [List.map_cons, ih (fun x hx => hmem x (List.mem_cons_of_mem _ hx))]
  exact main (d.own.map Prod.fst) (fun k hk => hk)

theorem values_eq_entries_map_snd {T : Type} (d : JSDict T) :
    d.values = d.entries.map Prod.snd := by
  unfold JSDict.values JSDict.entries
  rw [List.map_filterMap]
  apply List.filterMap_congr
  intro k _
  by_cases h : d.has k
  · simp only [h, if_true]
    cases d.readProperty k <;> simp
  · simp [h]

/-- C9: a freshly constructed Dictionary holds no inherited member name as a
key — `has` is false and `get` is `undefined` for every name (in particular
for built-in object member names such as `toString` or `hasOwnProperty`) until
the name is explicitly `set`; `has` becomes true exactly for explicitly set
keys; and the enumerating operations (`keys`, `entries`, `values`) visit
exactly the explicitly set keys and no others. -/
theorem c9_dictionary_free_of_inherited_members :
    (∀ (T : Type) (name : String), (JSDict.new T).has name = false)
    ∧ (∀ (T : Type) (name : String), (JSDict.new T).get name = none)
    ∧ (∀ (T : Type) (sets : List (String × T)) (name : String),
        (JSDict.ofSets sets).has name = true ↔ name ∈ sets.map Prod.fst)
    ∧ (∀ (T : Type) (sets : List (String × T)) (name : String),
        name ∈ (JSDict.ofSets sets).keys ↔ name ∈ sets.map Prod.fst)
    ∧ (∀ (T : Type) (sets : List (String × T)),
        ((JSDict.ofSets sets).entries).map Prod.fst = (JSDict.ofSets sets).keys)
    ∧ (∀ (T : Type) (sets : List (String × T)),
        (JSDict.ofSets sets).values = ((JSDict.ofSets sets).entries).map Prod.snd) := by
  refine ⟨?_, ?_, ?_, ?_, ?_, ?_⟩
  · intro T name
    rfl
  · intro T name
    rfl
  · intro T sets name
    simp only [JSDict.has, JSDict.hasOwnProperty]
    rw [← ofSets_own_keys_mem sets name]
    simp
  · intro T sets name
    rw [keys_of_protoProps_nil _ (ofSets_protoProps sets)]
    exact ofSets_own_keys_mem sets name
  · intro T sets
    exact entries_map_fst_of_protoProps_nil _ (ofSets_protoProps sets)
  · intro T sets
    exact values_eq_entries_map_snd _

/-- Witness for C9 at concrete inputs: the built-in member names are absent
from a fresh Dictionary, and after one explicit `set` the key set is exactly
the set key. -/
theorem c9_dictionary_free_of_inherited_members_witness :
    (JSDict.new Bool).has "toString" = false
    ∧ (JSDict.new Bool).has "hasOwnProperty" = false
    ∧ (JSDict.new Bool).get "constructor" = none
    ∧ ((JSDict.ofSets [("valueOf", true)]).has "valueOf" = true
        ↔ "valueOf" ∈ [("valueOf", true)].map Prod.fst)
    ∧ ("toString" ∈ (JSDict.ofSets [("valueOf", true)]).keys
        ↔ "toString" ∈ [("valueOf", true)].map Prod.fst) :=
  ⟨c9_dictionary_free_of_inherited_members.1 Bool "toString",
   c9_dictionary_free_of_inherited_members.1 Bool "hasOwnProperty",
   c9_dictionary_free_of_inherited_members.2.1 Bool "constructor",
   c9_dictionary_free_of_inherited_members.2.2.1 Bool [("valueOf", true)] "valueOf",
   c9_dictionary_free_of_inherited_members.2.2.2.1 Bool [("valueOf", true)] "toString"⟩

/-! ## Productions and parameters (checker.ts data model)

A `Production` node as seen by the checker: `id` is the unique node id
(reference identity of the node is modelled by id equality), `name` is the
text of the production name identifier, `nameEnd` its end offset,
`parameterList` the optional bracketed parameter list (with its end offset),
`colonTokenEnd` the end offset of the colon token when present, and `body`
the kind of the body node when present.  A parameter name identifier whose
text is missing (`undefined`) is modelled by the empty string, which is falsy
in every guard the source applies to it. -/

structure Param where
  name : String
deriving DecidableEq, Repr

structure ParameterList where
  elements : List Param
  endPos : Nat
deriving DecidableEq, Repr

inductive BodyKind where
  | oneOfList
  | rightHandSide
  | rightHandSideList
  | otherKind
deriving DecidableEq, Repr

structure Production where
  id : String
  name : String
  nameEnd : Nat
  parameterList : Option ParameterList
  colonTokenEnd : Option Nat
  body : Option BodyKind
deriving DecidableEq, Repr

/-- The parameter elements of a production (empty when the parameter list is
absent), as read via `parameterList ? parameterList.elements : undefined`. -/
def Production.parameters (p : Production) : List Param :=
  match p.parameterList with
  | some pl => pl.elements
  | none => []

/-- `Checker.getProductionParametersByName` without its per-file memo (the
memo is keyed by the unique node id and only avoids recomputation): walks the
parameter elements in order and records each truthy (nonempty) parameter name
text not already present.  The resulting dictionary of names is modelled as
the insertion-ordered list of its keys. -/
def getProductionParametersByName (p : Production) : List String :=
  p.parameters.foldl
    (fun parametersByName param =>
      if param.name ≠ "" ∧ ¬ parametersByName.contains param.name then
        parametersByName ++ [param.name]
      else parametersByName)
    []

/-- A `Production_0_is_missing_parameter_1_...` diagnostic of
`checkProductionStrict`: `attributedTo` is the id of the production whose
node (name identifier for the current declaration, production node for the
canonical declaration) the diagnostic is reported on, `productionName` is the
first message argument (always the current declaration name text) and
`parameterName` the second. -/
structure MissingParamDiag where
  attributedTo : String
  productionName : String
  parameterName : String
deriving DecidableEq, Repr

/-- `Checker.checkProductionStrict`, restricted to the missing-parameter
diagnostics it emits.  `firstProduction` is the canonical declaration
(`bindings.getDeclarations(symbol)[0]`) of the production symbol that
`thisProduction`'s name resolves to; the source compares the two node
references, modelled by id equality.  (`checkIdentifier` and
`checkParameterList`, also invoked by the source function, never emit this
diagnostic kind.) -/
def checkProductionStrict (firstProduction thisProduction : Production) :
    List MissingParamDiag :=
  if firstProduction.id = thisProduction.id then []
  else
    let thisProductionParameterNames := getProductionParametersByName thisProduction
    let firstProductionParameterNames := getProductionParametersByName firstProduction
    (firstProduction.parameters.filter
        (fun p => ¬ thisProductionParameterNames.contains p.name)).map
      (fun p => ⟨thisProduction.id, thisProduction.name, p.name⟩)
    ++ (thisProduction.parameters.filter
        (fun p => ¬ firstProductionParameterNames.contains p.name)).map
      (fun p => ⟨firstProduction.id, thisProduction.name, p.name⟩)

/-- Membership in the dictionary built by `getProductionParametersByName`:
exactly the nonempty parameter name texts. -/
theorem mem_getProductionParametersByName (p : Production) (n : String) :
    n ∈ getProductionParametersByName p ↔
      n ≠ "" ∧ n ∈ p.parameters.map Param.name := by
  have main : ∀ (l : List Param) (acc : List String),
      n ∈ l.foldl
        (fun parametersByName param =>
          if param.name ≠ "" ∧ ¬ parametersByName.contains param.name then
            parametersByName ++ [param.name]
          else parametersByName) acc ↔
        n ∈ acc ∨ (n ≠ "" ∧ n ∈ l.map Param.name) := by
    intro l
    induction l with
    | nil => intro acc; simp
    | cons hd tl ih =>
      intro acc
      rw [List.foldl_cons]
      by_cases hc : hd.name ≠ "" ∧ ¬ acc.contains hd.name
      · rw [if_pos hc, ih]
        rw [List.mem_append, List.mem_singleton, List.map_cons, List.mem_cons]
        constructor
        · rintro ((h | rfl) | h)
          · exact Or.inl h
          · exact Or.inr ⟨hc.1, Or.inl rfl⟩
          · exact Or.inr ⟨h.1, Or.inr h.2⟩
        · rintro (h | ⟨hne, (rfl | h)⟩)
          · exact Or.inl (Or.inl h)
          · exact Or.inl (Or.inr rfl)
          · exact Or.inr ⟨hne, h⟩
      · rw [if_neg hc, ih]
        rw [List.map_cons, List.mem_cons]
        rw [not_and_or, not_not, not_not] at hc
        constructor
        · rintro (h | h)
          · exact Or.inl h
          · exact Or.inr ⟨h.1, Or.inr h.2⟩
        · rintro (h | ⟨hne, (rfl | h)⟩)
          · exact Or.inl h
          · rcases hc with hc | hc
            · exact absurd hc hne
            · exact Or.inl (by simpa using hc)
          · exact Or.inr ⟨hne, h⟩
  rw [getProductionParametersByName, main]
  simp

/-- Counting, over a parameter list with pairwise distinct nonempty names,
the entries with a given name that fail a membership test. -/
theorem countP_missing_of_nodup (params : List Param) (names : List String)
    (n : String)
    (hnd : (params.map Param.name).Nodup)
    (hne : ∀ p ∈ params, p.name ≠ "") :
    ((params.filter (fun p => ¬ names.contains p.name)).countP
        (fun p => decide (p.name = n)))
      = if (n ≠ "" ∧ n ∈ params.map Param.name) ∧ ¬ names.contains n then 1
        else 0 := by
  rw [List.countP_filter]
  by_cases hmem : n ∈ params.map Param.name
  · have hnn : n ≠ "" := by
      rw [List.mem_map] at hmem
      obtain ⟨p, hp, hpn⟩ := hmem
      exact hpn ▸ hne p hp
    by_cases hns : names.contains n
    · rw [if_neg (by tauto)]
      apply List.countP_eq_zero.mpr
      intro p _
      simp only [Bool.and_eq_true, decide_eq_true_eq, not_and, Bool.not_eq_true',
        decide_eq_true_eq]
      intro hpn
      subst hpn
      simpa using hns
    · rw [if_pos (by tauto)]
      have step : ∀ p : Param,
          (decide (p.name = n) && decide (¬ names.contains p.name = true))
            = (p.name == n) := by
        intro p
        by_cases hpn : p.name = n
        · subst hpn
          have hnm : p.name ∉ names := by simpa using hns
          simp [hnm]
        · simp [hpn]
      calc params.countP
              (fun p => decide (p.name = n) && decide (¬ names.contains p.name = true))
            = params.countP (fun p => p.name == n) := by
              apply List.countP_congr
              intro p _
              rw [step]
        _ = (params.map Param.name).countP (fun s => s == n) := by
              rw [List.countP_map]
              rfl
        _ = (params.map Param.name).count n := rfl
        _ = 1 := List.count_eq_one_of_mem hnd hmem
  · rw [if_neg (by tauto)]
    apply List.countP_eq_zero.mpr
    intro p hp
    simp only [Bool.and_eq_true, decide_eq_true_eq, not_and]
    intro hpn
    exact absurd (hpn ▸ List.mem_map_of_mem Param.name hp) hmem

/-- C1 (amended): in strict mode, when a production declaration is compared
against the canonical (first-registered) declaration of its name, the
cross-declaration check reports missing-parameter diagnostics in both
directions, one per offending parameter-list entry; provided every parameter
name in both declarations is nonempty and no declaration repeats a parameter
name, this is exactly one diagnostic attributed to the current declaration
for each name in the canonical name set but not in the current one, and
exactly one attributed to the canonical declaration for each name in the
current name set but not in the canonical one, each diagnostic naming the
current production; equal name sets produce no diagnostic, and a declaration
that is itself canonical produces none. -/
theorem c1_strict_parameter_consistency
    (firstProduction thisProduction : Production)
    (hfirst : (firstProduction.parameters.map Param.name).Nodup ∧
      ∀ p ∈ firstProduction.parameters, p.name ≠ "")
    (hthis : (thisProduction.parameters.map Param.name).Nodup ∧
      ∀ p ∈ thisProduction.parameters, p.name ≠ "") :
    (firstProduction.id = thisProduction.id →
      checkProductionStrict firstProduction thisProduction = [])
    ∧ ((∀ n, n ∈ getProductionParametersByName firstProduction ↔
          n ∈ getProductionParametersByName thisProduction) →
        checkProductionStrict firstProduction thisProduction = [])
    ∧ (firstProduction.id ≠ thisProduction.id →
        ∀ n, (checkProductionStrict firstProduction thisProduction).countP
            (fun d => decide (d.attributedTo = thisProduction.id ∧
              d.parameterName = n))
          = if n ∈ getProductionParametersByName firstProduction ∧
              n ∉ getProductionParametersByName thisProduction then 1 else 0)
    ∧ (firstProduction.id ≠ thisProduction.id →
        ∀ n, (checkProductionStrict firstProduction thisProduction).countP
            (fun d => decide (d.attributedTo = firstProduction.id ∧
              d.parameterName = n))
          = if n ∈ getProductionParametersByName thisProduction ∧
              n ∉ getProductionParametersByName firstProduction then 1 else 0)
    ∧ (∀ d ∈ checkProductionStrict firstProduction thisProduction,
        d.productionName = thisProduction.name) := by
  refine ⟨?_, ?_, ?_, ?_, ?_⟩
  · intro h
    simp only [checkProductionStrict, if_pos h]
  · intro hset
    by_cases hid : firstProduction.id = thisProduction.id
    · simp only [checkProductionStrict, if_pos hid]
    · simp only [checkProductionStrict, if_neg hid]
      have h1 : firstProduction.parameters.filter
          (fun p => ¬ (getProductionParametersByName thisProduction).contains p.name)
            = [] := by
        apply List.filter_eq_nil_iff.mpr
        intro p hp
        have hm : p.name ∈ getProductionParametersByName firstProduction :=
          (mem_getProductionParametersByName _ _).mpr
            ⟨hfirst.2 p hp, List.mem_map_of_mem _ hp⟩
        have hm2 := (hset p.name).mp hm
        simp [hm2]
      have h2 : thisProduction.parameters.filter
          (fun p => ¬ (getProductionParametersByName firstProduction).contains p.name)
            = [] := by
        apply List.filter_eq_nil_iff.mpr
        intro p hp
        have hm : p.name ∈ getProductionParametersByName thisProduction :=
          (mem_getProductionParametersByName _ _).mpr
            ⟨hthis.2 p hp, List.mem_map_of_mem _ hp⟩
        have hm2 := (hset p.name).mpr hm
        simp [hm2]
      rw [h1, h2]
      rfl
  · intro hid n
    simp only [checkProductionStrict, if_neg hid]
    rw [List.countP_append]
    have hpart2 : ((thisProduction.parameters.filter
        (fun p => ¬ (getProductionParametersByName firstProduction).contains p.name)).map
          (fun p => (⟨firstProduction.id, thisProduction.name, p.name⟩ : MissingParamDiag))).countP
        (fun d => decide (d.attributedTo = thisProduction.id ∧
          d.parameterName = n)) = 0 := by
      rw [List.countP_map]
      apply List.countP_eq_zero.mpr
      intro p _
      simp only [Function.comp_apply, decide_eq_true_eq, not_and]
      intro hc
      exact absurd hc hid
    rw [hpart2, Nat.add_zero, List.countP_map]
    have hcong : (firstProduction.parameters.filter
        (fun p => ¬ (getProductionParametersByName thisProduction).contains p.name)).countP
        ((fun d : MissingParamDiag => decide (d.attributedTo = thisProduction.id ∧
          d.parameterName = n)) ∘
          (fun p => (⟨thisProduction.id, thisProduction.name, p.name⟩ : MissingParamDiag)))
        = (firstProduction.parameters.filter
            (fun p => ¬ (getProductionParametersByName thisProduction).contains p.name)).countP
          (fun p => decide (p.name = n)) := by
      apply List.countP_congr
      intro p _
      simp
    rw [hcong, countP_missing_of_nodup _ _ _ hfirst.1 hfirst.2]
    have hiff : ((n ≠ "" ∧ n ∈ firstProduction.parameters.map Param.name) ∧
        ¬ (getProductionParametersByName thisProduction).contains n) ↔
        (n ∈ getProductionParametersByName firstProduction ∧
          n ∉ getProductionParametersByName thisProduction) := by
      rw [← mem_getProductionParametersByName]
      simp
    by_cases hcond : n ∈ getProductionParametersByName firstProduction ∧
        n ∉ getProductionParametersByName thisProduction
    · rw [if_pos (hiff.mpr hcond), if_pos hcond]
    · rw [if_neg (fun hh => hcond (hiff.mp hh)), if_neg hcond]
  · intro hid n
    simp only [checkProductionStrict, if_neg hid]
    rw [List.countP_append]
    have hpart1 : ((firstProduction.parameters.filter
        (fun p => ¬ (getProductionParametersByName thisProduction).contains p.name)).map
          (fun p => (⟨thisProduction.id, thisProduction.name, p.name⟩ : MissingParamDiag))).countP
        (fun d => decide (d.attributedTo = firstProduction.id ∧
          d.parameterName = n)) = 0 := by
      rw [List.countP_map]
      apply List.countP_eq_zero.mpr
      intro p _
      simp only [Function.comp_apply, decide_eq_true_eq, not_and]
      intro hc
      exact absurd hc.symm hid
    rw [hpart1, Nat.zero_add, List.countP_map]
    have hcong : (thisProduction.parameters.filter
        (fun p => ¬ (getProductionParametersByName firstProduction).contains p.name)).countP
        ((fun d : MissingParamDiag => decide (d.attributedTo = firstProduction.id ∧
          d.parameterName = n)) ∘
          (fun p => (⟨firstProduction.id, thisProduction.name, p.name⟩ : MissingParamDiag)))
        = (thisProduction.parameters.filter
            (fun p => ¬ (getProductionParametersByName firstProduction).contains p.name)).countP
          (fun p => decide (p.name = n)) := by
      apply List.countP_congr
      intro p _
      simp
    rw [hcong, countP_missing_of_nodup _ _ _ hthis.1 hthis.2]
    have hiff : ((n ≠ "" ∧ n ∈ thisProduction.parameters.map Param.name) ∧
        ¬ (getProductionParametersByName firstProduction).contains n) ↔
        (n ∈ getProductionParametersByName thisProduction ∧
          n ∉ getProductionParametersByName firstProduction) := by
      rw [← mem_getProductionParametersByName]
      simp
    by_cases hcond : n ∈ getProductionParametersByName thisProduction ∧
        n ∉ getProductionParametersByName firstProduction
    · rw [if_pos (hiff.mpr hcond), if_pos hcond]
    · rw [if_neg (fun hh => hcond (hiff.mp hh)), if_neg hcond]
  · intro d hd
    simp only [checkProductionStrict] at hd
    by_cases hid : firstProduction.id = thisProduction.id
    · rw [if_pos hid] at hd
      simp at hd
    · rw [if_neg hid, List.mem_append] at hd
      rcases hd with hd | hd
      · rw [List.mem_map] at hd
        obtain ⟨p, _, hfd⟩ := hd
        rw [← hfd]
      · rw [List.mem_map] at hd
        obtain ⟨p, _, hfd⟩ := hd
        rw [← hfd]

/-- C1 counterexample: a canonical declaration whose parameter list repeats
the name `x` and a second declaration without `x` receive two
missing-parameter diagnostics for the single name `x` (one per occurrence),
not exactly one as the claim states. -/
theorem c1_counterexample_duplicate_parameter_occurrences :
    (checkProductionStrict
        ⟨"first", "P", 1, some ⟨[⟨"x"⟩, ⟨"x"⟩], 4⟩, none, none⟩
        ⟨"second", "P", 1, some ⟨[], 2⟩, none, none⟩).countP
      (fun d => decide (d.attributedTo = "second" ∧ d.parameterName = "x"))
      = 2 := by decide

/-- Witness for C1 at the concrete declarations `P[x]` (canonical) and
`P[y]`. -/
theorem c1_strict_parameter_consistency_witness :
    (checkProductionStrict
        ⟨"first", "P", 1, some ⟨[⟨"x"⟩], 4⟩, none, none⟩
        ⟨"second", "P", 1, some ⟨[⟨"y"⟩], 4⟩, none, none⟩).countP
      (fun d => decide (d.attributedTo = "second" ∧ d.parameterName = "x"))
      = if "x" ∈ getProductionParametersByName
            ⟨"first", "P", 1, some ⟨[⟨"x"⟩], 4⟩, none, none⟩ ∧
          "x" ∉ getProductionParametersByName
            ⟨"second", "P", 1, some ⟨[⟨"y"⟩], 4⟩, none, none⟩
        then 1 else 0 :=
  (c1_strict_parameter_consistency
      ⟨"first", "P", 1, some ⟨[⟨"x"⟩], 4⟩, none, none⟩
      ⟨"second", "P", 1, some ⟨[⟨"y"⟩], 4⟩, none, none⟩
      (by decide) (by decide)).2.2.1 (by decide) "x"

/-! ## Strict nonterminal-reference checking (checker.ts)

`checkNonterminalStrict` runs when the nonterminal name resolved to a
production symbol.  `target` below is that symbol's canonical declaration
(`bindings.getDeclarations(productionSymbol)[0]`).  The diagnostics of the
three parametric kinds are recorded; the purely structural diagnostics that
`checkGrammarOptionalSymbol`, `checkGrammarArgumentList`,
`checkGrammarArgument` and `checkGrammarIdentifier` may also emit use
different message templates and are modelled separately or omitted here. -/

/-- The kind of the operator token of an argument (`?`, `+`, `~`, or some
unexpected token kind); `none` models a missing operator token. -/
inductive ArgOp where
  | question
  | plus
  | tilde
  | otherToken
deriving DecidableEq, Repr

/-- An argument at a call site: the text of its name identifier (empty string
for a missing/empty identifier) and its operator token. -/
structure Arg where
  name : String
  op : Option ArgOp
deriving DecidableEq, Repr

/-- Modelled from the spec: `resolveSymbol(location, name, SymbolKind.Parameter)`
(binder.ts is not part of the provided source) searches the parameter scope of
the production enclosing `location` and succeeds exactly for the names the
binder registered there, i.e. the declared parameter names of that
production.  For a production node the enclosing production is the node
itself, so the scope is its own parameter-name list. -/
def parameterScope (p : Production) : List String :=
  p.parameters.map Param.name

/-- A parametric diagnostic of strict nonterminal checking:
`Argument_0_cannot_be_specified_multiple_times` (reported on the argument
name), `Production_0_does_not_have_a_parameter_named_1_` (reported on the
argument name, with the production name as first message argument), and
`There_is_no_argument_given_for_parameter_0_` (reported on the nonterminal
name). -/
inductive NTDiag where
  | duplicateArgument (argName : String)
  | noSuchParameter (productionName : String) (argName : String)
  | missingArgument (parameterName : String)
deriving DecidableEq, Repr

/-- The first loop of `checkNonterminalStrict` ("check each argument has a
matching parameter"): walks the call-site arguments, detecting duplicate
names via the `nameSet` dictionary (first occurrence wins) and resolving each
first-occurrence name in the target production's parameter scope.  Returns
the diagnostics in emission order together with the final `nameSet`
(modelled as the insertion-ordered key list). -/
def checkNonterminalStrictArgsLoop (target : Production) :
    List Arg → List String → List NTDiag × List String
  | [], nameSet => ([], nameSet)
  | a :: rest, nameSet =>
    if nameSet.contains a.name then
      let r := checkNonterminalStrictArgsLoop target rest nameSet
      (NTDiag.duplicateArgument a.name :: r.1, r.2)
    else
      let nameSet' := nameSet ++ [a.name]
      let headDiags :=
        if (parameterScope target).contains a.name then []
        else [NTDiag.noSuchParameter target.name a.name]
      let r := checkNonterminalStrictArgsLoop target rest nameSet'
      (headDiags ++ r.1, r.2)

/-- `Checker.checkIdentifier` for an identifier whose parent is an `Argument`
node, restricted to the `Production_0_does_not_have_a_parameter_named_1_`
diagnostics it can emit.  An empty identifier text skips resolution entirely.
With a `?` operator the name is resolved in the parameter scope of the
production enclosing the call site (the caller, whose name is `callerName`
and whose parameter scope is `callerParams`); otherwise the target production
of the enclosing nonterminal is resolved (here assumed successful, as in the
context of C2) and the name is resolved in the target's parameter scope. -/
def checkIdentifierForArgument (callerName : String)
    (callerParams : List String) (target : Production) (a : Arg) :
    List NTDiag :=
  if a.name = "" then []
  else
    match a.op with
    | some ArgOp.question =>
      if callerParams.contains a.name then []
      else [NTDiag.noSuchParameter callerName a.name]
    | _ =>
      if (parameterScope target).contains a.name then []
      else [NTDiag.noSuchParameter target.name a.name]

/-- `Checker.checkArgumentList`, restricted to the parametric diagnostics:
`checkGrammarArgumentList` and `checkGrammarArgument` emit only structural
diagnostics, so what remains is `checkIdentifier` on each argument name. -/
def checkArgumentListDiags (callerName : String) (callerParams : List String)
    (target : Production) (args : List Arg) : List NTDiag :=
  match args with
  | [] => []
  | a :: rest =>
    checkIdentifierForArgument callerName callerParams target a
      ++ checkArgumentListDiags callerName callerParams target rest

/-- `Checker.checkNonterminalStrict`, restricted to the parametric
diagnostics, for a nonterminal reference whose name resolved to a production
symbol with canonical declaration `target`: the argument-matching loop, then
the missing-argument loop over the target parameter list, then
`checkArgumentList` over the same arguments. -/
def checkNonterminalStrict (callerName : String) (callerParams : List String)
    (target : Production) (argumentList : Option (List Arg)) : List NTDiag :=
  let args := match argumentList with
    | some l => l
    | none => []
  let r := checkNonterminalStrictArgsLoop target args []
  let missingDiags :=
    ((target.parameters.map Param.name).filter
        (fun parameterName => ¬ r.2.contains parameterName)).map
      NTDiag.missingArgument
  r.1 ++ missingDiags ++ (match argumentList with
    | some l => checkArgumentListDiags callerName callerParams target l
    | none => [])

/-- Membership in the final argument `nameSet` of the matching loop: the
starting keys plus every argument name (duplicated or not). -/
theorem argsLoop_nameSet_mem (target : Production) (args : List Arg) :
    ∀ (nameSet : List String) (n : String),
      n ∈ (checkNonterminalStrictArgsLoop target args nameSet).2 ↔
        n ∈ nameSet ∨ n ∈ args.map Arg.name := by
  induction args with
  | nil =>
    intro nameSet n
    simp [checkNonterminalStrictArgsLoop]
  | cons a rest ih =>
    intro nameSet n
    by_cases hc : nameSet.contains a.name
    · simp only [checkNonterminalStrictArgsLoop, hc, if_true]
      rw [ih, List.map_cons, List.mem_cons]
      constructor
      · rintro (h | h)
        · exact Or.inl h
        · exact Or.inr (Or.inr h)
      · rintro (h | (rfl | h))
        · exact Or.inl h
        · exact Or.inl (by simpa using hc)
        · exact Or.inr h
    · simp only [checkNonterminalStrictArgsLoop, hc, Bool.false_eq_true, if_false]
      rw [ih, List.mem_append, List.mem_singleton, List.map_cons, List.mem_cons]
      tauto

/-- Duplicate-argument diagnostics of the matching loop, counted per name:
one per occurrence after the first (occurrences of names already in the
starting `nameSet` all count). -/
theorem argsLoop_duplicate_count (target : Production) (args : List Arg) :
    ∀ (nameSet : List String) (n : String),
      ((checkNonterminalStrictArgsLoop target args nameSet).1).count
          (NTDiag.duplicateArgument n)
        = if n ∈ nameSet then (args.map Arg.name).count n
          else (args.map Arg.name).count n - 1 := by
  induction args with
  | nil =>
    intro nameSet n
    simp only [checkNonterminalStrictArgsLoop, List.map_nil, List.count_nil]
    split <;> simp
  | cons a rest ih =>
    intro nameSet n
    by_cases hc : nameSet.contains a.name
    · simp only [checkNonterminalStrictArgsLoop, hc, if_true]
      rw [List.count_cons, ih, List.map_cons, List.count_cons]
      by_cases han : a.name = n
      · subst han
        have hmem : a.name ∈ nameSet := by simpa using hc
        simp [hmem]
      · have hne2 : ¬ (NTDiag.duplicateArgument a.name
            = NTDiag.duplicateArgument n) := by
          simp [han]
        simp only [beq_iff_eq, hne2, if_false, han]
        simp [han]
    · simp only [checkNonterminalStrictArgsLoop, hc, Bool.false_eq_true, if_false]
      rw [List.count_append, ih, List.map_cons, List.count_cons]
      have hhead : (if (parameterScope target).contains a.name then []
          else [NTDiag.noSuchParameter target.name a.name]).count
            (NTDiag.duplicateArgument n) = 0 := by
        split <;> simp
      rw [hhead]
      by_cases han : a.name = n
      · subst han
        have hnm : a.name ∉ nameSet := by simpa using hc
        have hmem' : a.name ∈ nameSet ++ [a.name] := by simp
        simp only [hmem', if_true, hnm, if_false]
        simp
      · have hnm' : n ∈ nameSet ++ [a.name] ↔ n ∈ nameSet := by
          simp [List.mem_append, Ne.symm han]
        simp only [hnm']
        simp [han]

/-- No-such-parameter diagnostics of the matching loop, counted per name: one
for the first occurrence of an argument name (not already in the starting
`nameSet`) that is absent from the target parameter scope. -/
theorem argsLoop_noSuch_count (target : Production) (args : List Arg) :
    ∀ (nameSet : List String) (n : String),
      ((checkNonterminalStrictArgsLoop target args nameSet).1).count
          (NTDiag.noSuchParameter target.name n)
        = if n ∉ nameSet ∧ n ∈ args.map Arg.name ∧ n ∉ parameterScope target
          then 1 else 0 := by
  induction args with
  | nil =>
    intro nameSet n
    simp [checkNonterminalStrictArgsLoop]
  | cons a rest ih =>
    intro nameSet n
    by_cases hc : nameSet.contains a.name
    · simp only [checkNonterminalStrictArgsLoop, hc, if_true]
      rw [List.count_cons, ih]
      have hdup : ¬ ((NTDiag.duplicateArgument a.name : NTDiag)
          = NTDiag.noSuchParameter target.name n) := by simp
      simp only [beq_iff_eq, hdup, if_false, Nat.add_zero]
      by_cases han : a.name = n
      · subst han
        have hm : a.name ∈ nameSet := by simpa using hc
        simp [hm]
      · have : (n ∈ List.map Arg.name (a :: rest)) ↔ n ∈ List.map Arg.name rest := by
          simp [Ne.symm han]
        simp only [this]
    · simp only [checkNonterminalStrictArgsLoop, hc, Bool.false_eq_true, if_false]
      rw [List.count_append, ih]
      by_cases han : a.name = n
      · subst han
        have hnm : a.name ∉ nameSet := by simpa using hc
        have hm2 : a.name ∈ nameSet ++ [a.name] := by simp
        have hihz : ¬ (a.name ∉ nameSet ++ [a.name] ∧
            a.name ∈ List.map Arg.name rest ∧
            a.name ∉ parameterScope target) := by
          intro hcon
          exact hcon.1 hm2
        rw [if_neg hihz, Nat.add_zero]
        by_cases hscope : (parameterScope target).contains a.name
        · have hsm : a.name ∈ parameterScope target := by simpa using hscope
          simp [hscope, hsm, hnm]
        · have hsm : a.name ∉ parameterScope target := by simpa using hscope
          simp [hscope, hsm, hnm]
      · have hhead : (if (parameterScope target).contains a.name then []
            else [NTDiag.noSuchParameter target.name a.name]).count
              (NTDiag.noSuchParameter target.name n) = 0 := by
          split
          · simp
          · rw [List.count_cons, List.count_nil]
            simp [han]
        rw [hhead, Nat.zero_add]
        have hset : n ∈ nameSet ++ [a.name] ↔ n ∈ nameSet := by
          simp [List.mem_append, Ne.symm han]
        have hmap : (n ∈ List.map Arg.name (a :: rest)) ↔
            n ∈ List.map Arg.name rest := by
          simp [Ne.symm han]
        simp only [hset, hmap]

/-- Diagnostics of the matching loop naming any production other than the
target are never emitted. -/
theorem argsLoop_noSuch_other_count (target : Production) (args : List Arg)
    (pn : String) (hpn : pn ≠ target.name) :
    ∀ (nameSet : List String) (n : String),
      ((checkNonterminalStrictArgsLoop target args nameSet).1).count
        (NTDiag.noSuchParameter pn n) = 0 := by
  induction args with
  | nil =>
    intro nameSet n
    simp [checkNonterminalStrictArgsLoop]
  | cons a rest ih =>
    intro nameSet n
    by_cases hc : nameSet.contains a.name
    · simp only [checkNonterminalStrictArgsLoop, hc, if_true]
      rw [List.count_cons, ih]
      simp
    · simp only [checkNonterminalStrictArgsLoop, hc, Bool.false_eq_true, if_false]
      rw [List.count_append, ih]
      have hhead : (if (parameterScope target).contains a.name then []
          else [NTDiag.noSuchParameter target.name a.name]).count
            (NTDiag.noSuchParameter pn n) = 0 := by
        split
        · simp
        · rw [List.count_cons, List.count_nil]
          simp [Ne.symm hpn]
      rw [hhead]

/-- The matching loop never emits a missing-argument diagnostic. -/
theorem argsLoop_missing_count (target : Production) (args : List Arg) :
    ∀ (nameSet : List String) (n : String),
      ((checkNonterminalStrictArgsLoop target args nameSet).1).count
        (NTDiag.missingArgument n) = 0 := by
  induction args with
  | nil =>
    intro nameSet n
    simp [checkNonterminalStrictArgsLoop]
  | cons a rest ih =>
    intro nameSet n
    by_cases hc : nameSet.contains a.name
    · simp only [checkNonterminalStrictArgsLoop, hc, if_true]
      rw [List.count_cons, ih]
      simp
    · simp only [checkNonterminalStrictArgsLoop, hc, Bool.false_eq_true, if_false]
      rw [List.count_append, ih]
      have hhead : (if (parameterScope target).contains a.name then []
          else [NTDiag.noSuchParameter target.name a.name]).count
            (NTDiag.missingArgument n) = 0 := by
        split <;> simp
      rw [hhead]

/-- `checkIdentifier` on an argument with a `?` operator resolves in the
caller parameter scope. -/
theorem checkIdentifierForArgument_eq_of_question (c : String)
    (cp : List String) (t : Production) (a : Arg) (hname : a.name ≠ "")
    (hop : a.op = some ArgOp.question) :
    checkIdentifierForArgument c cp t a =
      if cp.contains a.name then []
      else [NTDiag.noSuchParameter c a.name] := by
  unfold checkIdentifierForArgument
  rw [if_neg hname, hop]

/-- `checkIdentifier` on an argument without a `?` operator resolves in the
target parameter scope. -/
theorem checkIdentifierForArgument_eq_of_not_question (c : String)
    (cp : List String) (t : Production) (a : Arg) (hname : a.name ≠ "")
    (hop : a.op ≠ some ArgOp.question) :
    checkIdentifierForArgument c cp t a =
      if (parameterScope t).contains a.name then []
      else [NTDiag.noSuchParameter t.name a.name] := by
  unfold checkIdentifierForArgument
  rw [if_neg hname]
  cases hop2 : a.op with
  | none => rfl
  | some op =>
    cases op with
    | question => exact absurd hop2 hop
    | plus => rfl
    | tilde => rfl
    | otherToken => rfl

/-- No-such-parameter diagnostics naming the target production, emitted by
`checkArgumentList` resolution: one per argument occurrence whose operator is
not `?` and whose name is not in the target scope. -/
theorem argList_noSuch_target_count (callerName : String)
    (callerParams : List String) (target : Production)
    (hcn : callerName ≠ target.name) (n : String) :
    ∀ (args : List Arg), (∀ a ∈ args, a.name ≠ "") →
      (checkArgumentListDiags callerName callerParams target args).count
          (NTDiag.noSuchParameter target.name n)
        = if n ∈ parameterScope target then 0
          else args.countP
            (fun a => decide (a.name = n ∧ ¬ a.op = some ArgOp.question)) := by
  intro args
  induction args with
  | nil =>
    intro _
    simp only [checkArgumentListDiags, List.count_nil, List.countP_nil]
    split <;> rfl
  | cons a rest ih =>
    intro hne
    have hna : a.name ≠ "" := hne a (List.mem_cons_self _ _)
    have hrest := ih (fun x hx => hne x (List.mem_cons_of_mem _ hx))
    simp only [checkArgumentListDiags]
    rw [List.count_append, hrest, List.countP_cons]
    by_cases hq : a.op = some ArgOp.question
    · rw [checkIdentifierForArgument_eq_of_question _ _ _ _ hna hq]
      have hhc : (if callerParams.contains a.name then []
          else [NTDiag.noSuchParameter callerName a.name]).count
            (NTDiag.noSuchParameter target.name n) = 0 := by
        split
        · simp
        · rw [List.count_cons, List.count_nil]
          simp [hcn]
      rw [hhc, Nat.zero_add]
      have hpred : (decide (a.name = n ∧ ¬ a.op = some ArgOp.question)) = false := by
        simp [hq]
      rw [hpred]
      split <;> simp
    · rw [checkIdentifierForArgument_eq_of_not_question _ _ _ _ hna hq]
      by_cases hscope : n ∈ parameterScope target
      · rw [if_pos hscope, if_pos hscope, Nat.add_zero]
        split
        · simp
        · next hncon =>
            rw [List.count_cons, List.count_nil]
            have hann : a.name ≠ n := by
              intro hh
              rw [hh] at hncon
              exact hncon (by simpa using hscope)
            simp [hann]
      · rw [if_neg hscope, if_neg hscope]
        have hpred : (decide (a.name = n ∧ ¬ a.op = some ArgOp.question))
            = decide (a.name = n) := by
          simp [hq]
        rw [hpred]
        by_cases han : a.name = n
        · subst han
          have hncon : ¬ (parameterScope target).contains a.name := by
            simpa using hscope
          rw [if_neg hncon, List.count_cons, List.count_nil]
          simp [Nat.add_comm]
        · have hz : (if (parameterScope target).contains a.name then []
              else [NTDiag.noSuchParameter target.name a.name]).count
                (NTDiag.noSuchParameter target.name n) = 0 := by
            split
            · simp
            · rw [List.count_cons, List.count_nil]
              simp [han]
          rw [hz, Nat.zero_add]
          simp [han]

/-- No-such-parameter diagnostics naming the caller production, emitted by
`checkArgumentList` resolution: one per `?`-operator argument occurrence
whose name is not a parameter of the caller. -/
theorem argList_noSuch_caller_count (callerName : String)
    (callerParams : List String) (target : Production)
    (hcn : callerName ≠ target.name) (n : String) :
    ∀ (args : List Arg), (∀ a ∈ args, a.name ≠ "") →
      (checkArgumentListDiags callerName callerParams target args).count
          (NTDiag.noSuchParameter callerName n)
        = if n ∈ callerParams then 0
          else args.countP
            (fun a => decide (a.name = n ∧ a.op = some ArgOp.question)) := by
  intro args
  induction args with
  | nil =>
    intro _
    simp only [checkArgumentListDiags, List.count_nil, List.countP_nil]
    split <;> rfl
  | cons a rest ih =>
    intro hne
    have hna : a.name ≠ "" := hne a (List.mem_cons_self _ _)
    have hrest := ih (fun x hx => hne x (List.mem_cons_of_mem _ hx))
    simp only [checkArgumentListDiags]
    rw [List.count_append, hrest, List.countP_cons]
    by_cases hq : a.op = some ArgOp.question
    · rw [checkIdentifierForArgument_eq_of_question _ _ _ _ hna hq]
      by_cases hcp : n ∈ callerParams
      · rw [if_pos hcp, if_pos hcp, Nat.add_zero]
        split
        · simp
        · next hncon =>
            rw [List.count_cons, List.count_nil]
            have hann : a.name ≠ n := by
              intro hh
              rw [hh] at hncon
              exact hncon (by simpa using hcp)
            simp [hann]
      · rw [if_neg hcp, if_neg hcp]
        have hpred : (decide (a.name = n ∧ a.op = some ArgOp.question))
            = decide (a.name = n) := by
          simp [hq]
        rw [hpred]
        by_cases han : a.name = n
        · subst han
          have hncon : ¬ callerParams.contains a.name := by simpa using hcp
          rw [if_neg hncon, List.count_cons, List.count_nil]
          simp [Nat.add_comm]
        · have hz : (if callerParams.contains a.name then []
              else [NTDiag.noSuchParameter callerName a.name]).count
                (NTDiag.noSuchParameter callerName n) = 0 := by
            split
            · simp
            · rw [List.count_cons, List.count_nil]
              simp [han]
          rw [hz, Nat.zero_add]
          simp [han]
    · rw [checkIdentifierForArgument_eq_of_not_question _ _ _ _ hna hq]
      have hhc : (if (parameterScope target).contains a.name then []
          else [NTDiag.noSuchParameter target.name a.name]).count
            (NTDiag.noSuchParameter callerName n) = 0 := by
        split
        · simp
        · rw [List.count_cons, List.count_nil]
          simp [Ne.symm hcn]
      rw [hhc, Nat.zero_add]
      have hpred : (decide (a.name = n ∧ a.op = some ArgOp.question)) = false := by
        simp [hq]
      rw [hpred]
      split <;> simp

/-- `checkArgumentList` resolution never emits duplicate-argument or
missing-argument diagnostics. -/
theorem argList_other_kinds_count (callerName : String)
    (callerParams : List String) (target : Production) (n : String) :
    ∀ (args : List Arg),
      (checkArgumentListDiags callerName callerParams target args).count
          (NTDiag.duplicateArgument n) = 0
      ∧ (checkArgumentListDiags callerName callerParams target args).count
          (NTDiag.missingArgument n) = 0 := by
  intro args
  induction args with
  | nil => simp [checkArgumentListDiags]
  | cons a rest ih =>
    simp only [checkArgumentListDiags]
    rw [List.count_append, List.count_append, ih.1, ih.2]
    have hhd : ∀ (m : NTDiag), (∀ pn an, m ≠ NTDiag.noSuchParameter pn an) →
        (checkIdentifierForArgument callerName callerParams target a).count m
          = 0 := by
      intro m hm
      unfold checkIdentifierForArgument
      split
      · simp
      · split
        · split
          · simp
          · rw [List.count_cons, List.count_nil]
            simp [Ne.symm (hm _ _)]
        · split
          · simp
          · rw [List.count_cons, List.count_nil]
            simp [Ne.symm (hm _ _)]
    constructor
    · rw [hhd (NTDiag.duplicateArgument n) (by intro pn an; simp)]
    · rw [hhd (NTDiag.missingArgument n) (by intro pn an; simp)]

/-- Counting the missing-argument diagnostics generated from the target
parameter-name list against the final argument name set. -/
theorem missingDiags_count (paramNames fin : List String) (n : String) :
    (((paramNames.filter (fun p => ¬ fin.contains p)).map
        NTDiag.missingArgument).count (NTDiag.missingArgument n))
      = if n ∈ fin then 0 else paramNames.count n := by
  have h1 : (((paramNames.filter (fun p => ¬ fin.contains p)).map
      NTDiag.missingArgument).count (NTDiag.missingArgument n))
      = (paramNames.filter (fun p => ¬ fin.contains p)).countP
          (fun s => s == n) := by
    show List.countP _ _ = _
    rw [List.countP_map]
    apply List.countP_congr
    intro s _
    simp
  rw [h1, List.countP_filter]
  by_cases hf : n ∈ fin
  · rw [if_pos hf]
    apply List.countP_eq_zero.mpr
    intro s _
    simp only [Bool.and_eq_true, beq_iff_eq, decide_eq_true_eq]
    rintro ⟨rfl, hcon⟩
    exact hcon (by simpa using hf)
  · rw [if_neg hf]
    have : paramNames.countP
        (fun s => s == n && decide (¬ fin.contains s = true))
        = paramNames.countP (fun s => s == n) := by
      apply List.countP_congr
      intro s _
      constructor
      · intro h
        exact (Bool.and_eq_true _ _ ▸ h).1
      · intro h
        have hs : s = n := by simpa using h
        subst hs
        simp only [Bool.and_eq_true, beq_self_eq_true, decide_eq_true_eq, true_and]
        simpa using hf
    rw [this]
    rfl

/-- The missing-argument diagnostic list contains no other diagnostic
kinds. -/
theorem missingDiags_other_count (paramNames fin : List String)
    (m : NTDiag) (hm : ∀ an, m ≠ NTDiag.missingArgument an) :
    (((paramNames.filter (fun p => ¬ fin.contains p)).map
        NTDiag.missingArgument).count m) = 0 := by
  induction paramNames with
  | nil => simp
  | cons p rest ih =>
    rw [List.filter_cons]
    split
    · rw [List.map_cons, List.count_cons, ih]
      simp [Ne.symm (hm p)]
    · exact ih

/-- C2 (amended): in strict mode, for a nonterminal reference whose production
symbol resolves (canonical declaration `target`), with nonempty argument
names and a caller production of a different name: each argument occurrence
repeating an earlier argument name yields exactly one duplicate-argument
diagnostic (first occurrence wins); each formal parameter occurrence of the
target not covered by any supplied argument name yields exactly one
missing-argument diagnostic, and a parameter covered only by a duplicated
argument name is not reported missing; and a non-duplicate argument name with
no matching target parameter yields one no-such-parameter diagnostic from the
argument-matching loop — but the subsequent per-argument identifier
resolution emits a further no-such-parameter diagnostic naming the target for
every occurrence of such a name whose operator is not `?`, and one naming the
caller for every `?`-operator occurrence whose name is not a caller
parameter, so the total is not always exactly one. -/
theorem c2_strict_nonterminal_argument_check (callerName : String)
    (callerParams : List String) (target : Production) (args : List Arg)
    (hcn : callerName ≠ target.name)
    (hne : ∀ a ∈ args, a.name ≠ "") :
    (∀ n, (checkNonterminalStrict callerName callerParams target
          (some args)).count (NTDiag.duplicateArgument n)
        = (args.map Arg.name).count n - 1)
    ∧ (∀ n, (checkNonterminalStrict callerName callerParams target
          (some args)).count (NTDiag.missingArgument n)
        = if n ∈ args.map Arg.name then 0
          else (target.parameters.map Param.name).count n)
    ∧ (∀ n, (checkNonterminalStrict callerName callerParams target
          (some args)).count (NTDiag.noSuchParameter target.name n)
        = (if n ∈ args.map Arg.name ∧ n ∉ parameterScope target then 1 else 0)
          + (if n ∈ parameterScope target then 0
            else args.countP
              (fun a => decide (a.name = n ∧ ¬ a.op = some ArgOp.question))))
    ∧ (∀ n, (checkNonterminalStrict callerName callerParams target
          (some args)).count (NTDiag.noSuchParameter callerName n)
        = if n ∈ callerParams then 0
          else args.countP
            (fun a => decide (a.name = n ∧ a.op = some ArgOp.question))) := by
  have hunfold : checkNonterminalStrict callerName callerParams target
        (some args)
      = (checkNonterminalStrictArgsLoop target args []).1
        ++ ((target.parameters.map Param.name).filter
            (fun parameterName =>
              ¬ (checkNonterminalStrictArgsLoop target args []).2.contains
                parameterName)).map NTDiag.missingArgument
        ++ checkArgumentListDiags callerName callerParams target args := rfl
  refine ⟨?_, ?_, ?_, ?_⟩
  · intro n
    rw [hunfold, List.count_append, List.count_append]
    rw [argsLoop_duplicate_count,
      missingDiags_other_count _ _ _ (by intro an; simp),
      (argList_other_kinds_count callerName callerParams target n args).1]
    simp
  · intro n
    rw [hunfold, List.count_append, List.count_append]
    rw [argsLoop_missing_count, missingDiags_count,
      (argList_other_kinds_count callerName callerParams target n args).2]
    have hm : n ∈ (checkNonterminalStrictArgsLoop target args []).2 ↔
        n ∈ args.map Arg.name := by
      rw [argsLoop_nameSet_mem]
      simp
    simp only [hm]
    simp
  · intro n
    rw [hunfold, List.count_append, List.count_append]
    rw [argsLoop_noSuch_count,
      missingDiags_other_count _ _ _ (by intro an; simp),
      argList_noSuch_target_count callerName callerParams target hcn n args hne]
    simp
  · intro n
    rw [hunfold, List.count_append, List.count_append]
    rw [argsLoop_noSuch_other_count target args callerName hcn,
      missingDiags_other_count _ _ _ (by intro an; simp),
      argList_noSuch_caller_count callerName callerParams target hcn n args hne]
    simp

/-- C2 counterexample: for target production `Q[a]` and call site `Q[+c]`
(inside caller production `P`), the argument name `c` has no matching target
parameter, and checking the nonterminal reference emits two no-such-parameter
diagnostics for it — one from the argument-matching loop, one from identifier
resolution in `checkArgumentList` — not exactly one as the claim states. -/
theorem c2_counterexample_double_no_such_parameter :
    (checkNonterminalStrict "P" []
        ⟨"q", "Q", 1, some ⟨[⟨"a"⟩], 3⟩, none, none⟩
        (some [⟨"c", some ArgOp.plus⟩])).count
      (NTDiag.noSuchParameter "Q" "c") = 2 := by decide

/-- Witness for C2 at the concrete target `Q[a,b]` and call site `Q[+a]`:
exactly one missing-argument diagnostic for parameter `b`. -/
theorem c2_strict_nonterminal_argument_check_witness :
    (checkNonterminalStrict "P" []
        ⟨"q", "Q", 1, some ⟨[⟨"a"⟩, ⟨"b"⟩], 5⟩, none, none⟩
        (some [⟨"a", some ArgOp.plus⟩])).count
      (NTDiag.missingArgument "b")
      = if "b" ∈ [Arg.mk "a" (some ArgOp.plus)].map Arg.name then 0
        else ((⟨"q", "Q", 1, some ⟨[⟨"a"⟩, ⟨"b"⟩], 5⟩, none, none⟩ :
          Production).parameters.map Param.name).count "b" :=
  (c2_strict_nonterminal_argument_check "P" []
    ⟨"q", "Q", 1, some ⟨[⟨"a"⟩, ⟨"b"⟩], 5⟩, none, none⟩
    [⟨"a", some ArgOp.plus⟩] (by decide) (by decide)).2.1 "b"

/-! ## Production grammar-shape checking (checker.ts)

`checkGrammarProduction` reports at most one diagnostic and returns.  The
diagnostic is modelled as its reported position together with its kind. -/

inductive GrammarDiagKind where
  | colonExpected
  | bodyExpected
deriving DecidableEq, Repr

/-- `Checker.checkGrammarProduction`: start from the end of the name (or of
the parameter list when present); a missing colon token reports there;
otherwise the source executes `pos += node.colonToken.end` (adding the colon
end offset to the running position) and a missing body, or a body of a kind
other than the three allowed ones, reports at that accumulated position. -/
def checkGrammarProduction (node : Production) : Option (Nat × GrammarDiagKind) :=
  let pos := match node.parameterList with
    | some pl => pl.endPos
    | none => node.nameEnd
  match node.colonTokenEnd with
  | none => some (pos, GrammarDiagKind.colonExpected)
  | some colonEnd =>
    let pos := pos + colonEnd
    match node.body with
    | none => some (pos, GrammarDiagKind.bodyExpected)
    | some BodyKind.oneOfList => none
    | some BodyKind.rightHandSide => none
    | some BodyKind.rightHandSideList => none
    | some BodyKind.otherKind => some (pos, GrammarDiagKind.bodyExpected)

/-- C7: for a production with name ending at offset 1, no parameter list, a
colon token ending at offset 2 and a missing body, the single grammar-shape
diagnostic is positioned at 1 + 2 = 3 — the sum of the name end and colon end
offsets produced by `pos += node.colonToken.end` — and not at the colon token
end offset 2 that the claim (and the positioning convention used by every
other grammar check in the file) requires. -/
theorem c7_body_diagnostic_position :
    checkGrammarProduction ⟨"p1", "P", 1, none, some 2, none⟩
      = some (3, GrammarDiagKind.bodyExpected)
    ∧ checkGrammarProduction
        ⟨"p2", "P", 1, none, some 2, some BodyKind.otherKind⟩
      = some (3, GrammarDiagKind.bodyExpected)
    ∧ (3 : Nat) ≠ 2 := by decide

/-! ## One-of list checking (checker.ts)

`checkOneOfList` walks the `terminals` array with a text-keyed dictionary:
a terminal whose text is already present reports a duplicate-terminal
diagnostic and is not validated further; otherwise the text is recorded and
the terminal is validated by `checkTerminal`.  Diagnostics are tagged with
the index of the terminal they are attributed to (the source attributes them
to the terminal node).  `checkGrammarOneOfList` emits only list-level
diagnostics and is not part of the per-terminal stream modelled here. -/

structure TerminalNode where
  text : String
  questionToken : Bool
deriving DecidableEq, Repr

inductive TerminalDiag where
  | duplicateTerminal (text : String)
  | unexpectedToken
  | terminalExpected
deriving DecidableEq, Repr

/-- `Checker.checkTerminal` as invoked from `checkOneOfList` (with
`allowOptional` left `undefined`): a present question token reports
`Unexpected_token_0_` via `checkGrammarOptionalSymbol` and short-circuits;
otherwise an empty terminal text reports `_0_expected`. -/
def checkTerminalDiags (t : TerminalNode) : List TerminalDiag :=
  if t.questionToken then [TerminalDiag.unexpectedToken]
  else if t.text = "" then [TerminalDiag.terminalExpected]
  else []

/-- The terminal loop of `Checker.checkOneOfList`, with `terminalSet`
modelled as the insertion-ordered key list and `i` the index of the next
terminal. -/
def checkOneOfListLoop :
    List TerminalNode → List String → Nat → List (Nat × TerminalDiag)
  | [], _, _ => []
  | t :: rest, terminalSet, i =>
    if terminalSet.contains t.text then
      (i, TerminalDiag.duplicateTerminal t.text)
        :: checkOneOfListLoop rest terminalSet (i + 1)
    else
      (checkTerminalDiags t).map (fun d => (i, d))
        ++ checkOneOfListLoop rest (terminalSet ++ [t.text]) (i + 1)

/-- `Checker.checkOneOfList` restricted to the per-terminal diagnostics: the
loop runs only when the `terminals` array is present. -/
def checkOneOfList (terminals : Option (List TerminalNode)) :
    List (Nat × TerminalDiag) :=
  match terminals with
  | some l => checkOneOfListLoop l [] 0
  | none => []

/-- Every diagnostic of the one-of-list loop is attributed to an index at or
beyond the starting index. -/
theorem checkOneOfListLoop_index_ge (l : List TerminalNode) :
    ∀ (terminalSet : List String) (k : Nat)
      (d : Nat × TerminalDiag), d ∈ checkOneOfListLoop l terminalSet k →
        k ≤ d.1 := by
  induction l with
  | nil =>
    intro terminalSet k d hd
    simp [checkOneOfListLoop] at hd
  | cons t rest ih =>
    intro terminalSet k d hd
    by_cases hc : terminalSet.contains t.text
    · simp only [checkOneOfListLoop, hc, if_true, List.mem_cons] at hd
      rcases hd with rfl | hd
      · exact Nat.le_refl _
      · exact Nat.le_of_succ_le (ih _ _ _ hd)
    · simp only [checkOneOfListLoop, hc, Bool.false_eq_true, if_false,
        List.mem_append] at hd
      rcases hd with hd | hd
      · rw [List.mem_map] at hd
        obtain ⟨x, _, hx⟩ := hd
        rw [← hx]
      · exact Nat.le_of_succ_le (ih _ _ _ hd)

/-- The diagnostics of the one-of-list loop attributed to the terminal at a
given index: exactly one duplicate-terminal diagnostic when an earlier
terminal (or a starting key) has the same text, and exactly the validation
diagnostics of `checkTerminal`, emitted once, otherwise. -/
theorem checkOneOfListLoop_filter (l : List TerminalNode) :
    ∀ (terminalSet : List String) (k i : Nat) (hi : i < l.length),
      (checkOneOfListLoop l terminalSet k).filter
          (fun d => decide (d.1 = k + i))
        = if (l.get ⟨i, hi⟩).text ∈ terminalSet ∨
            (l.get ⟨i, hi⟩).text ∈ (l.take i).map TerminalNode.text
          then [(k + i, TerminalDiag.duplicateTerminal (l.get ⟨i, hi⟩).text)]
          else (checkTerminalDiags (l.get ⟨i, hi⟩)).map (fun d => (k + i, d)) := by
  induction l with
  | nil =>
    intro terminalSet k i hi
    simp at hi
  | cons t rest ih =>
    intro terminalSet k i hi
    cases i with
    | zero =>
      have hget : (t :: rest).get ⟨0, hi⟩ = t := rfl
      simp only [hget, List.take_zero, List.map_nil,
        List.not_mem_nil, or_false, Nat.add_zero]
      by_cases hc : terminalSet.contains t.text
      · have hcm : t.text ∈ terminalSet := by simpa using hc
        simp only [checkOneOfListLoop, hc, if_true]
        rw [List.filter_cons, if_pos (by simp)]
        have hnil : (checkOneOfListLoop rest terminalSet (k + 1)).filter
            (fun d => decide (d.1 = k)) = [] := by
          apply List.filter_eq_nil_iff.mpr
          intro d hd
          have hge := checkOneOfListLoop_index_ge rest terminalSet (k + 1) d hd
          simp only [decide_eq_true_eq]
          omega
        rw [hnil, if_pos hcm]
      · have hcm : t.text ∉ terminalSet := by simpa using hc
        simp only [checkOneOfListLoop, hc, Bool.false_eq_true, if_false]
        rw [List.filter_append]
        have hmapkeep : ((checkTerminalDiags t).map (fun d => (k, d))).filter
            (fun d => decide (d.1 = k))
            = (checkTerminalDiags t).map (fun d => (k, d)) := by
          apply List.filter_eq_self.mpr
          intro d hd
          rw [List.mem_map] at hd
          obtain ⟨x, _, hx⟩ := hd
          rw [← hx]
          simp
        have hnil : (checkOneOfListLoop rest (terminalSet ++ [t.text])
            (k + 1)).filter (fun d => decide (d.1 = k)) = [] := by
          apply List.filter_eq_nil_iff.mpr
          intro d hd
          have hge := checkOneOfListLoop_index_ge rest (terminalSet ++ [t.text])
            (k + 1) d hd
          simp only [decide_eq_true_eq]
          omega
        rw [hmapkeep, hnil, List.append_nil, if_neg hcm]
    | succ j =>
      have hj : j < rest.length := Nat.lt_of_succ_lt_succ hi
      have hkj : k + (j + 1) = (k + 1) + j := by omega
      have hget : (t :: rest).get ⟨j + 1, hi⟩ = rest.get ⟨j, hj⟩ := rfl
      simp only [hget, List.take_succ_cons, List.map_cons]
      by_cases hc : terminalSet.contains t.text
      · have hcm : t.text ∈ terminalSet := by simpa using hc
        simp only [checkOneOfListLoop, hc, if_true]
        rw [List.filter_cons,
          if_neg (by simp only [decide_eq_true_eq]; omega)]
        simp only [hkj]
        rw [ih terminalSet (k + 1) j hj]
        have hcond : ((rest.get ⟨j, hj⟩).text ∈ terminalSet ∨
            (rest.get ⟨j, hj⟩).text ∈ (rest.take j).map TerminalNode.text) ↔
            ((rest.get ⟨j, hj⟩).text ∈ terminalSet ∨
              (rest.get ⟨j, hj⟩).text ∈
                t.text :: (rest.take j).map TerminalNode.text) := by
          rw [List.mem_cons]
          constructor
          · rintro (h | h)
            · exact Or.inl h
            · exact Or.inr (Or.inr h)
          · rintro (h | (h | h))
            · exact Or.inl h
            · exact Or.inl (h ▸ hcm)
            · exact Or.inr h
        exact if_congr hcond rfl rfl
      · have hcm : t.text ∉ terminalSet := by simpa using hc
        simp only [checkOneOfListLoop, hc, Bool.false_eq_true, if_false]
        rw [List.filter_append]
        have hmapnil : ((checkTerminalDiags t).map (fun d => (k, d))).filter
            (fun d => decide (d.1 = k + (j + 1))) = [] := by
          apply List.filter_eq_nil_iff.mpr
          intro d hd
          rw [List.mem_map] at hd
          obtain ⟨x, _, hx⟩ := hd
          rw [← hx]
          simp only [decide_eq_true_eq]
          omega
        rw [hmapnil, List.nil_append]
        simp only [hkj]
        rw [ih (terminalSet ++ [t.text]) (k + 1) j hj]
        have hcond : ((rest.get ⟨j, hj⟩).text ∈ terminalSet ++ [t.text] ∨
            (rest.get ⟨j, hj⟩).text ∈ (rest.take j).map TerminalNode.text) ↔
            ((rest.get ⟨j, hj⟩).text ∈ terminalSet ∨
              (rest.get ⟨j, hj⟩).text ∈
                t.text :: (rest.take j).map TerminalNode.text) := by
          rw [List.mem_cons, List.mem_append, List.mem_singleton]
          tauto
        exact if_congr hcond rfl rfl

/-- C10: for a one-of list whose `terminals` array is present, the
diagnostics attributed to the terminal at index `i` are exactly one
duplicate-terminal diagnostic when an earlier terminal of the list has the
same text, and otherwise exactly the diagnostics of one validation of that
terminal by `checkTerminal`; an absent `terminals` array produces no
per-terminal diagnostics. -/
theorem c10_one_of_list_duplicate_terminals (l : List TerminalNode)
    (i : Nat) (hi : i < l.length) :
    ((checkOneOfList (some l)).filter (fun d => decide (d.1 = i))
      = if (l.get ⟨i, hi⟩).text ∈ (l.take i).map TerminalNode.text
        then [(i, TerminalDiag.duplicateTerminal (l.get ⟨i, hi⟩).text)]
        else (checkTerminalDiags (l.get ⟨i, hi⟩)).map (fun d => (i, d)))
    ∧ checkOneOfList none = [] := by
  constructor
  · have h := checkOneOfListLoop_filter l [] 0 i hi
    simp only [List.not_mem_nil, false_or, Nat.zero_add] at h
    simpa [checkOneOfList] using h
  · rfl

/-- Witness for C10 at the concrete list `one of: a, a` — the second `a` is
reported as a duplicate and receives no further validation. -/
theorem c10_one_of_list_duplicate_terminals_witness :
    (checkOneOfList (some [⟨"a", false⟩, ⟨"a", false⟩])).filter
        (fun d => decide (d.1 = 1))
      = if (([⟨"a", false⟩, ⟨"a", false⟩] : List TerminalNode).get
            ⟨1, by decide⟩).text ∈
          (([⟨"a", false⟩, ⟨"a", false⟩] : List TerminalNode).take 1).map
            TerminalNode.text
        then [(1, TerminalDiag.duplicateTerminal
            (([⟨"a", false⟩, ⟨"a", false⟩] : List TerminalNode).get
              ⟨1, by decide⟩).text)]
        else (checkTerminalDiags (([⟨"a", false⟩, ⟨"a", false⟩] :
            List TerminalNode).get ⟨1, by decide⟩)).map (fun d => (1, d)) :=
  (c10_one_of_list_duplicate_terminals [⟨"a", false⟩, ⟨"a", false⟩] 1
    (by decide)).1

/-! ## checkSourceFile: idempotence, cancellation, strictness restore
(checker.ts)

`checkSourceFile` guards on the per-checker `checkedFileSet` (keyed by
filename), saves the strictness flag, polls the cancellation token, runs the
preprocess pass (which may toggle the flag via `Define` directives) and the
check pass, restores the flag, and finally marks the file as checked.  The
diagnostics produced by the two passes are abstracted as a function
`checkPass` of the post-preprocess strictness flag and the file; this is
fully general because the preprocess-pass diagnostics do not depend on the
flag and the check-pass diagnostics are a deterministic function of the
post-preprocess flag and the file. -/

inductive SourceElement where
  | define (key : String) (valueToken : Option Bool)
  | production (p : Production)
  | invalidSourceElement
deriving Repr

structure SourceFile where
  filename : String
  elements : List SourceElement
deriving Repr

structure CheckerState (α : Type) where
  checkedFileSet : List String
  diagnostics : List α
  noStrictParametricProductions : Bool
deriving Repr

/-- `Checker.preprocessSourceElement` (via `preprocessDefine` and
`checkGrammarDefine`), restricted to its effect on the strictness flag: a
`Define` with a present key text and a present value token sets the flag when
the key is `noStrictParametricProductions` (`valueToken.kind ===
TrueKeyword`); malformed or unrecognized directives, and all other element
kinds, leave it unchanged. -/
def preprocessSourceElementFlag (flag : Bool) (e : SourceElement) : Bool :=
  match e with
  | SourceElement.define key valueToken =>
    if key = "" then flag
    else
      match valueToken with
      | none => flag
      | some b => if key = "noStrictParametricProductions" then b else flag
  | _ => flag

/-- The preprocess pass over the top-level elements of a source file. -/
def preprocessFlag (flag : Bool) (elements : List SourceElement) : Bool :=
  elements.foldl preprocessSourceElementFlag flag

/-- `Checker.checkSourceFile`: the returned Boolean is the cancellation
outcome (`true` when `throwIfCancellationRequested` threw). -/
def checkSourceFile {α : Type} (checkPass : Bool → SourceFile → List α)
    (cancelRequested : Bool) (st : CheckerState α) (file : SourceFile) :
    CheckerState α × Bool :=
  if st.checkedFileSet.contains file.filename then (st, false)
  else if cancelRequested then (st, true)
  else
    let saved := st.noStrictParametricProductions
    let flagDuring := preprocessFlag st.noStrictParametricProductions
      file.elements
    ({ checkedFileSet := st.checkedFileSet ++ [file.filename],
       diagnostics := st.diagnostics ++ checkPass flagDuring file,
       noStrictParametricProductions := saved }, false)

/-- C3: once a call to `checkSourceFile` on a file has completed (was not
cancelled), a second call on the same file is a no-op: it returns the state
unchanged and emits no further diagnostics, so the diagnostic set after two
calls equals the set after one. -/
theorem c3_checkSourceFile_idempotent {α : Type}
    (checkPass : Bool → SourceFile → List α) (cancel1 cancel2 : Bool)
    (st : CheckerState α) (file : SourceFile)
    (h : (checkSourceFile checkPass cancel1 st file).2 = false) :
    checkSourceFile checkPass cancel2
        (checkSourceFile checkPass cancel1 st file).1 file
      = ((checkSourceFile checkPass cancel1 st file).1, false)
    ∧ (checkSourceFile checkPass cancel2
        (checkSourceFile checkPass cancel1 st file).1 file).1.diagnostics
      = (checkSourceFile checkPass cancel1 st file).1.diagnostics := by
  have hmem : (checkSourceFile checkPass cancel1 st
      file).1.checkedFileSet.contains file.filename = true := by
    unfold checkSourceFile at h ⊢
    by_cases hc : st.checkedFileSet.contains file.filename
    · rw [if_pos hc] at h ⊢
      exact hc
    · rw [if_neg hc] at h ⊢
      by_cases hcan : cancel1 = true
      · rw [if_pos hcan] at h
        simp at h
      · rw [if_neg hcan]
        simp
  have h2 : checkSourceFile checkPass cancel2
      (checkSourceFile checkPass cancel1 st file).1 file
      = ((checkSourceFile checkPass cancel1 st file).1, false) := by
    show (if _ then _ else _) = _
    rw [if_pos hmem]
  exact ⟨h2, by rw [h2]⟩

/-- Witness for C3 at a concrete state and file. -/
theorem c3_checkSourceFile_idempotent_witness :
    checkSourceFile (fun _ _ => ([] : List Nat)) false
        (checkSourceFile (fun _ _ => ([] : List Nat)) false
          ⟨[], [], false⟩ ⟨"a.grammar", []⟩).1 ⟨"a.grammar", []⟩
      = ((checkSourceFile (fun _ _ => ([] : List Nat)) false
          ⟨[], [], false⟩ ⟨"a.grammar", []⟩).1, false) :=
  (c3_checkSourceFile_idempotent (fun _ _ => ([] : List Nat)) false false
    ⟨[], [], false⟩ ⟨"a.grammar", []⟩ (by decide)).1

/-- C4: when the cancellation signal is active and the file has not been
checked yet, `checkSourceFile` propagates the cancellation outcome, emits no
diagnostic for the file (previously recorded diagnostics are preserved
unchanged, and cancellation is not reported through the diagnostic sink), and
does not mark the file as checked. -/
theorem c4_checkSourceFile_cancellation {α : Type}
    (checkPass : Bool → SourceFile → List α) (st : CheckerState α)
    (file : SourceFile)
    (h : st.checkedFileSet.contains file.filename = false) :
    checkSourceFile checkPass true st file = (st, true)
    ∧ (checkSourceFile checkPass true st file).1.diagnostics = st.diagnostics
    ∧ (checkSourceFile checkPass true st file).1.checkedFileSet
      = st.checkedFileSet := by
  have h1 : checkSourceFile checkPass true st file = (st, true) := by
    unfold checkSourceFile
    rw [if_neg (by rw [h]; simp), if_pos rfl]
  exact ⟨h1, by rw [h1], by rw [h1]⟩

/-- Witness for C4: cancelling before checking a fresh file preserves the
diagnostics of a file checked earlier in the session. -/
theorem c4_checkSourceFile_cancellation_witness :
    checkSourceFile (fun _ _ => [0]) true
        ⟨["a.grammar"], [0], false⟩ ⟨"b.grammar", []⟩
      = (⟨["a.grammar"], [0], false⟩, true) :=
  (c4_checkSourceFile_cancellation (fun _ _ => [0])
    ⟨["a.grammar"], [0], false⟩ ⟨"b.grammar", []⟩ (by decide)).1

/-- C8: the strictness flag after `checkSourceFile` returns equals the flag
at entry, in every branch — even though the check pass itself runs under the
flag produced by the preprocess pass, which a mid-file `Define` directive may
have toggled — so checking a later sibling file starts from the pre-file
value. -/
theorem c8_strictness_restored {α : Type}
    (checkPass : Bool → SourceFile → List α) (cancelRequested : Bool)
    (st : CheckerState α) (file : SourceFile) :
    ((checkSourceFile checkPass cancelRequested st
        file).1).noStrictParametricProductions
      = st.noStrictParametricProductions
    ∧ (st.checkedFileSet.contains file.filename = false →
        cancelRequested = false →
        (checkSourceFile checkPass cancelRequested st file).1.diagnostics
          = st.diagnostics ++ checkPass
              (preprocessFlag st.noStrictParametricProductions file.elements)
              file) := by
  constructor
  · unfold checkSourceFile
    by_cases hc : st.checkedFileSet.contains file.filename
    · rw [if_pos hc]
    · rw [if_neg hc]
      by_cases hcan : cancelRequested = true
      · rw [if_pos hcan]
      · rw [if_neg hcan]
  · intro h1 h2
    subst h2
    unfold checkSourceFile
    rw [if_neg (by rw [h1]; simp), if_neg (by simp)]

/-- Witness for C8: a file whose single element is
`@define noStrictParametricProductions true` runs its check pass under the
toggled flag (the emitted marker diagnostic is `true`) while the checker
state keeps its entry flag `false` on return. -/
theorem c8_strictness_restored_witness :
    ((checkSourceFile (fun b _ => [b]) false ⟨[], [], false⟩
        ⟨"a.grammar",
          [SourceElement.define "noStrictParametricProductions"
            (some true)]⟩).1).noStrictParametricProductions = false
    ∧ (checkSourceFile (fun b _ => [b]) false ⟨[], [], false⟩
        ⟨"a.grammar",
          [SourceElement.define "noStrictParametricProductions"
            (some true)]⟩).1.diagnostics
      = [] ++ [preprocessFlag false
          [SourceElement.define "noStrictParametricProductions" (some true)]] :=
  ⟨(c8_strictness_restored (fun b _ => [b]) false ⟨[], [], false⟩
      ⟨"a.grammar", [SourceElement.define "noStrictParametricProductions"
        (some true)]⟩).1,
   (c8_strictness_restored (fun b _ => [b]) false ⟨[], [], false⟩
      ⟨"a.grammar", [SourceElement.define "noStrictParametricProductions"
        (some true)]⟩).2 (by decide) rfl⟩

/-! ## Canonical-form digest (checker.ts, RightHandSideDigest)

The digest serializes the head symbol span of an alternative through the
per-variant templates of `writeNode`, then hashes the canonical text with
SHA-1 and keeps the first 8 hex characters.  The AST model below covers the
node kinds with bespoke serializers plus keyword/punctuation tokens;
identifier-valued children (`Identifier` nodes) are carried as their text,
since `writeNode` on an identifier reduces to `write(node.text)`. -/

/-- The keyword and punctuation token kinds that can appear inside a
serialized alternative. -/
inductive TokenKind where
  | questionToken
  | plusToken
  | tildeToken
  | equalsEqualsToken
  | exclamationEqualsToken
  | lessThanMinusToken
  | lessThanExclamationToken
  | throughKeyword
  | butKeyword
  | notKeyword
deriving DecidableEq, Repr

/-- Modelled from the spec: `tokenToString` (tokens.ts is not part of the
provided source) renders each keyword or punctuation token as its fixed
source text. -/
def tokenToString (k : TokenKind) : String :=
  match k with
  | TokenKind.questionToken => "?"
  | TokenKind.plusToken => "+"
  | TokenKind.tildeToken => "~"
  | TokenKind.equalsEqualsToken => "=="
  | TokenKind.exclamationEqualsToken => "!="
  | TokenKind.lessThanMinusToken => "<-"
  | TokenKind.lessThanExclamationToken => "<!"
  | TokenKind.throughKeyword => "through"
  | TokenKind.butKeyword => "but"
  | TokenKind.notKeyword => "not"

/-- The digest node variants handled by `writeNode`.  `Option` fields model
children that may be `undefined` in malformed trees. -/
inductive DNode where
  | terminal (text : String) (questionToken : Option TokenKind)
  | unicodeCharacterLiteral (text : String) (questionToken : Option TokenKind)
  | prose (fragments : List DNode)
  | nonterminal (name : String) (argumentList : Option DNode)
      (questionToken : Option TokenKind)
  | emptyAssertion
  | lexicalGoalAssertion (symbol : Option String)
  | lookaheadAssertion (operatorToken : Option TokenKind)
      (lookahead : Option DNode)
  | noSymbolHereAssertion (symbols : List DNode)
  | parameterValueAssertion (operatorToken : TokenKind) (name : Option String)
  | proseAssertion (fragments : List DNode)
  | proseFragmentLiteral (text : String)
  | unicodeCharacterRange (left : Option DNode)
      (throughKeyword : Option TokenKind) (right : Option DNode)
  | butNotSymbol (left : Option DNode) (butKeyword notKeyword : Option TokenKind)
      (right : Option DNode)
  | oneOfSymbol (symbols : List DNode)
  | symbolSpan (symbol : Option DNode) (next : Option DNode)
  | symbolSet (elements : List DNode)
  | argumentList (elements : List DNode)
  | argument (operatorToken : Option TokenKind) (name : Option String)
  | ident (text : String)
  | token (kind : TokenKind)

/-- The `StringWriter` together with the `spaceRequested` flag of
`RightHandSideDigest`. -/
structure DigestWriter where
  out : String
  spaceRequested : Bool
deriving DecidableEq, Repr

/-- `RightHandSideDigest.write`: a falsy (empty) text writes nothing at all;
otherwise a requested space is flushed first, but only when the writer is
nonempty (never a leading space), and flushing resets the request. -/
def DigestWriter.write (w : DigestWriter) (text : String) : DigestWriter :=
  if text = "" then w
  else if w.spaceRequested ∧ w.out.length > 0 then
    { out := w.out ++ " " ++ text, spaceRequested := false }
  else { w with out := w.out ++ text }

/-- `RightHandSideDigest.writeToken`: write the fixed token text and request
a following space. -/
def writeTokenW (w : DigestWriter) (k : TokenKind) : DigestWriter :=
  let w := w.write (tokenToString k)
  { w with spaceRequested := true }

/-- `writeNode` on an optional token child (a missing node writes
nothing). -/
def writeTokenOpt (w : DigestWriter) (k : Option TokenKind) : DigestWriter :=
  match k with
  | none => w
  | some k => writeTokenW w k

/-- `writeNode` on an optional identifier child: `writeIdentifier` writes the
identifier text. -/
def writeIdentOpt (w : DigestWriter) (s : Option String) : DigestWriter :=
  match s with
  | none => w
  | some text => w.write text

mutual

/-- `RightHandSideDigest.writeNode`, dispatching on the node kind to the
per-variant serializers. -/
def writeNd (w : DigestWriter) (n : DNode) : DigestWriter :=
  match n with
  | DNode.terminal text q =>
    let w := w.write "`"
    let w := w.write text
    let w := w.write "`"
    let w := writeTokenOpt w q
    { w with spaceRequested := true }
  | DNode.unicodeCharacterLiteral text q =>
    let w := w.write "<"
    let w := w.write text
    let w := w.write ">"
    let w := writeTokenOpt w q
    { w with spaceRequested := true }
  | DNode.prose fragments =>
    let w := w.write "> "
    writeNds w fragments
  | DNode.nonterminal name argumentList q =>
    let w := w.write name
    let w := writeNdOpt w argumentList
    let w := writeTokenOpt w q
    { w with spaceRequested := true }
  | DNode.emptyAssertion =>
    let w := w.write "[empty]"
    { w with spaceRequested := true }
  | DNode.lexicalGoalAssertion symbol =>
    let w := w.write "[lexical goal "
    let w := writeIdentOpt w symbol
    let w := { w with spaceRequested := false }
    let w := w.write "]"
    { w with spaceRequested := true }
  | DNode.lookaheadAssertion operatorToken lookahead =>
    let w := w.write "[lookahead "
    let w := writeTokenOpt w operatorToken
    let w := writeNdOpt w lookahead
    let w := { w with spaceRequested := false }
    let w := w.write "]"
    { w with spaceRequested := true }
  | DNode.noSymbolHereAssertion symbols =>
    let w := w.write "[no "
    let w := writeOrSeparated w true symbols
    w.write " here]"
  | DNode.parameterValueAssertion operatorToken name =>
    let w := w.write "["
    let w := writeTokenW w operatorToken
    let w := { w with spaceRequested := false }
    let w := writeIdentOpt w name
    let w := w.write "]"
    { w with spaceRequested := true }
  | DNode.proseAssertion fragments =>
    let w := w.write "[>"
    let w := { w with spaceRequested := false }
    let w := writeProseAssertionFragments w fragments
    let w := w.write "]"
    { w with spaceRequested := true }
  | DNode.proseFragmentLiteral text =>
    w.write text
  | DNode.unicodeCharacterRange left throughKeyword right =>
    let w := writeNdOpt w left
    let w := writeTokenOpt w throughKeyword
    let w := writeNdOpt w right
    { w with spaceRequested := true }
  | DNode.butNotSymbol left butKeyword notKeyword right =>
    let w := writeNdOpt w left
    let w := writeTokenOpt w butKeyword
    let w := writeTokenOpt w notKeyword
    let w := writeNdOpt w right
    { w with spaceRequested := true }
  | DNode.oneOfSymbol symbols =>
    let w := w.write "one of "
    let w := writeOrSeparated w true symbols
    { w with spaceRequested := true }
  | DNode.symbolSpan symbol next =>
    let w := writeNdOpt w symbol
    writeNdOpt w next
  | DNode.symbolSet elements =>
    let w := w.write "\x7b "
    let w := writeCommaSeparatedReset w true elements
    let w := w.write " \x7d"
    { w with spaceRequested := true }
  | DNode.argumentList elements =>
    let w := w.write "["
    let w := writeCommaSeparated w true elements
    w.write "]"
  | DNode.argument operatorToken name =>
    let w := writeTokenOpt w operatorToken
    writeIdentOpt w name
  | DNode.ident text =>
    w.write text
  | DNode.token kind =>
    writeTokenW w kind

/-- Sequential `writeNode` over child fragments (`writeProse`). -/
def writeNds (w : DigestWriter) (ns : List DNode) : DigestWriter :=
  match ns with
  | [] => w
  | n :: rest => writeNds (writeNd w n) rest

/-- `writeNode` on an optional node child. -/
def writeNdOpt (w : DigestWriter) (n : Option DNode) : DigestWriter :=
  match n with
  | none => w
  | some n => writeNd w n

/-- The `" or "`-separated loops of `writeNoSymbolHereAssertion` and
`writeOneOfSymbol`, which clear `spaceRequested` after each element. -/
def writeOrSeparated (w : DigestWriter) (first : Bool) (ns : List DNode) :
    DigestWriter :=
  match ns with
  | [] => w
  | n :: rest =>
    let w := if first then w else w.write " or "
    let w := writeNd w n
    let w := { w with spaceRequested := false }
    writeOrSeparated w false rest

/-- The `", "`-separated loop of `writeArgumentList`. -/
def writeCommaSeparated (w : DigestWriter) (first : Bool) (ns : List DNode) :
    DigestWriter :=
  match ns with
  | [] => w
  | n :: rest =>
    let w := if first then w else w.write ", "
    let w := writeNd w n
    writeCommaSeparated w false rest

/-- The `", "`-separated loop of `writeSymbolSet`, which clears
`spaceRequested` after each element. -/
def writeCommaSeparatedReset (w : DigestWriter) (first : Bool)
    (ns : List DNode) : DigestWriter :=
  match ns with
  | [] => w
  | n :: rest =>
    let w := if first then w else w.write ", "
    let w := writeNd w n
    let w := { w with spaceRequested := false }
    writeCommaSeparatedReset w false rest

/-- The fragment loop of `writeProseAssertion`: identifier fragments are
wrapped in `|` bars (clearing `spaceRequested` between text and closing
bar). -/
def writeProseAssertionFragments (w : DigestWriter) (ns : List DNode) :
    DigestWriter :=
  match ns with
  | [] => w
  | f :: rest =>
    let w := match f with
      | DNode.ident text =>
        let w := w.write "|"
        let w := w.write text
        let w := { w with spaceRequested := false }
        w.write "|"
      | _ => writeNd w f
    writeProseAssertionFragments w rest

end

/-! ### SHA-1 (the `createHash("sha1")` digest used by `computeHash`)

Machine words are `Nat` reduced modulo `2 ^ 32`; the message is a list of
byte values. -/

/-- Left rotation of a 32-bit word. -/
def rotl32 (n x : Nat) : Nat :=
  (Nat.lor (Nat.shiftLeft x n) (Nat.shiftRight x (32 - n))) % 4294967296

/-- The per-round SHA-1 constant. -/
def sha1K (t : Nat) : Nat :=
  if t < 20 then 1518500249
  else if t < 40 then 1859775393
  else if t < 60 then 2400959708
  else 3395469782

/-- The per-round SHA-1 mixing function. -/
def sha1F (t b c d : Nat) : Nat :=
  if t < 20 then Nat.lor (Nat.land b c) (Nat.land (Nat.xor b 4294967295) d)
  else if t < 40 then Nat.xor (Nat.xor b c) d
  else if t < 60 then
    Nat.lor (Nat.lor (Nat.land b c) (Nat.land b d)) (Nat.land c d)
  else Nat.xor (Nat.xor b c) d

/-- Expand a 16-word block to the 80-word message schedule. -/
def sha1ExpandSchedule (w : Array Nat) (i : Nat) : Array Nat :=
  if i < 80 then
    sha1ExpandSchedule
      (w.push (rotl32 1
        (Nat.xor (Nat.xor (w.getD (i - 3) 0) (w.getD (i - 8) 0))
          (Nat.xor (w.getD (i - 14) 0) (w.getD (i - 16) 0))))) (i + 1)
  else w
termination_by 80 - i

/-- The 80 compression rounds over one schedule. -/
def sha1Rounds (w : Array Nat) (t : Nat)
    (st : Nat × Nat × Nat × Nat × Nat) : Nat × Nat × Nat × Nat × Nat :=
  if t < 80 then
    match st with
    | (a, b, c, d, e) =>
      sha1Rounds w (t + 1)
        ((rotl32 5 a + sha1F t b c d + e + sha1K t + w.getD t 0) % 4294967296,
          a, rotl32 30 b, c, d)
  else st
termination_by 80 - t

/-- Process one 16-word block. -/
def sha1Compress (h : Nat × Nat × Nat × Nat × Nat) (block : Array Nat) :
    Nat × Nat × Nat × Nat × Nat :=
  match sha1Rounds (sha1ExpandSchedule block 16) 0 h, h with
  | (a, b, c, d, e), (h0, h1, h2, h3, h4) =>
    ((h0 + a) % 4294967296, (h1 + b) % 4294967296, (h2 + c) % 4294967296,
      (h3 + d) % 4294967296, (h4 + e) % 4294967296)

/-- Big-endian packing of bytes into 32-bit words. -/
def bytesToWords : List Nat → List Nat
  | b0 :: b1 :: b2 :: b3 :: rest =>
    (((b0 * 256 + b1) * 256 + b2) * 256 + b3) :: bytesToWords rest
  | _ => []

/-- Split a word list into 16-word blocks. -/
def chunk16 (ws : List Nat) : List (Array Nat) :=
  if h : ws.isEmpty then []
  else (ws.take 16).toArray :: chunk16 (ws.drop 16)
termination_by ws.length
decreasing_by
  simp only [List.length_drop]
  cases ws with
  | nil => simp at h
  | cons a rest =>
      simp only [List.length_cons]
      omega

/-- SHA-1 padding: a `0x80` byte, zeros to 56 mod 64, and the bit length as
a 64-bit big-endian integer. -/
def sha1Pad (msg : List Nat) : List Nat :=
  let len := msg.length
  let bitLen := len * 8
  let zeroCount := (64 - ((len + 9) % 64)) % 64
  msg ++ [128] ++ List.replicate zeroCount 0 ++
    [bitLen / 72057594037927936 % 256, bitLen / 281474976710656 % 256,
      bitLen / 1099511627776 % 256, bitLen / 4294967296 % 256,
      bitLen / 16777216 % 256, bitLen / 65536 % 256,
      bitLen / 256 % 256, bitLen % 256]

/-- The initial SHA-1 state. -/
def sha1Init : Nat × Nat × Nat × Nat × Nat :=
  (1732584193, 4023233417, 2562383102, 271733878, 3285377520)

/-- The final SHA-1 state over a byte message. -/
def sha1State (msg : List Nat) : Nat × Nat × Nat × Nat × Nat :=
  (chunk16 (bytesToWords (sha1Pad msg))).foldl sha1Compress sha1Init

/-- A lowercase hexadecimal digit. -/
def hexDigit (n : Nat) : Char :=
  if n < 10 then Char.ofNat (48 + n) else Char.ofNat (87 + n)

/-- The 8 lowercase hex digits of a 32-bit word, most significant first. -/
def wordHexChars (x : Nat) : List Char :=
  [hexDigit (x / 268435456 % 16), hexDigit (x / 16777216 % 16),
    hexDigit (x / 1048576 % 16), hexDigit (x / 65536 % 16),
    hexDigit (x / 4096 % 16), hexDigit (x / 256 % 16),
    hexDigit (x / 16 % 16), hexDigit (x % 16)]

/-- The 40-character lowercase hexadecimal SHA-1 digest of a byte
message (`hash.digest("hex")`). -/
def sha1HexChars (msg : List Nat) : List Char :=
  wordHexChars (sha1State msg).1 ++ wordHexChars (sha1State msg).2.1
    ++ wordHexChars (sha1State msg).2.2.1
    ++ wordHexChars (sha1State msg).2.2.2.1
    ++ wordHexChars (sha1State msg).2.2.2.2

/-- UTF-8 encoding of a Unicode scalar value. -/
def utf8EncodeChar (c : Nat) : List Nat :=
  if c < 128 then [c]
  else if c < 2048 then [192 + c / 64, 128 + c % 64]
  else if c < 65536 then
    [224 + c / 4096, 128 + (c / 64) % 64, 128 + c % 64]
  else
    [240 + c / 262144, 128 + (c / 4096) % 64, 128 + (c / 64) % 64,
      128 + c % 64]

/-- UTF-8 encoding of a string (`hash.update(text, "utf8")`). -/
def utf8Encode (s : String) : List Nat :=
  (s.data.map (fun ch => utf8EncodeChar ch.toNat)).flatten

/-- A right-hand-side alternative as seen by the Resolver and the digest:
the optional manual link reference text and the head symbol span. -/
structure RightHandSide where
  reference : Option String
  head : Option DNode

/-- The canonical serialization of the head symbol span: the text the digest
writer produces from a fresh writer (`writeNode(node.head)` on a node that
may be `undefined`). -/
def canonicalText (node : RightHandSide) : String :=
  (writeNdOpt ⟨"", false⟩ node.head).out

/-- `RightHandSideDigest.computeHash`: SHA-1 of the UTF-8 canonical text,
rendered as lowercase hex and truncated by `digest.substr(0, 8)` (the digest
is ASCII, so the first 8 UTF-16 code units are the first 8 characters). -/
def computeHash (node : RightHandSide) : String :=
  String.mk ((sha1HexChars (utf8Encode (canonicalText node))).take 8)

/-- Whether a character is matched by the complement of the sanitizer class
`[^a-z0-9]`: a lowercase ASCII letter or an ASCII digit. -/
def isLinkIdChar (c : Char) : Bool :=
  (97 ≤ c.toNat ∧ c.toNat ≤ 122) ∨ (48 ≤ c.toNat ∧ c.toNat ≤ 57)

/-- `text.replace(/[^a-z0-9]+/g, "-")`: each maximal run of characters
outside `[a-z0-9]` becomes a single `-` (the `inRun` flag records whether the
previous character was part of such a run). -/
def sanitizeChars : List Char → Bool → List Char
  | [], _ => []
  | c :: rest, inRun =>
    if isLinkIdChar c then c :: sanitizeChars rest false
    else if inRun then sanitizeChars rest true
    else '-' :: sanitizeChars rest true

/-- The sanitizer applied to a manual link reference text. -/
def sanitizeLinkText (s : String) : String :=
  String.mk (sanitizeChars s.data false)

/-- `Resolver.getProductionLinkId`: the name of the production symbol the
identifier resolves to, or `undefined`.  Modelled from the spec: global-scope
resolution (binder.ts is not part of the provided source) succeeds exactly
for declared production names, and a production symbol is registered under
its name, so the resolved symbol name equals the identifier text. -/
def getProductionLinkId (globalProductions : List String) (name : String) :
    Option String :=
  if globalProductions.contains name then some name else none

/-- `Resolver.getRightHandSideLinkId`.  `productionName` is the name text of
the production node enclosing the alternative.  When the production link id
is `undefined`, JavaScript string concatenation renders it as the text
`undefined`. -/
def getRightHandSideLinkId (globalProductions : List String)
    (productionName : String) (node : RightHandSide)
    ( includePrefix : Bool) : String :=
  let linkId :=
    match node.reference with
    | some text =>
      if text ≠ "" then sanitizeLinkText text else (computeHash node).toLower
    | none => (computeHash node).toLower
  if includePrefix then
    (match getProductionLinkId globalProductions productionName with
      | some productionId => productionId
      | none => "undefined") ++ "-" ++ linkId
  else linkId

/-- C5 counterexample: the sanitizer class is `[^a-z0-9]` — uppercase
letters are not in the kept class, so the manual link reference `My Label`
yields the link id `-y-abel`, not `My-Label` as the claim states. -/
theorem c5_counterexample_uppercase_replaced :
    getRightHandSideLinkId [] "P" ⟨some "My Label", none⟩ false = "-y-abel"
    ∧ getRightHandSideLinkId [] "P" ⟨some "My Label", none⟩ false
      ≠ "My-Label" := by decide

/-- C5 (amended): a right-hand side carrying an explicit manual link
reference with text `My Label` yields the link id `-y-abel` regardless of its
grammar content — the sanitizer replaces every maximal run of characters
outside `[a-z0-9]` (which includes the uppercase letters of the label) by a
single `-` — and with includePrefix true and an owning production whose name
resolves, the owning production link id, a `-` separator, then `-y-abel`. -/
theorem c5_manual_link_reference_link_id (globalProductions : List String)
    (productionName : String) (head : Option DNode)
    (hres : productionName ∈ globalProductions) :
    getRightHandSideLinkId globalProductions productionName
        ⟨some "My Label", head⟩ false = "-y-abel"
    ∧ getRightHandSideLinkId globalProductions productionName
        ⟨some "My Label", head⟩ true
      = productionName ++ "-" ++ "-y-abel" := by
  have hsan : sanitizeLinkText "My Label" = "-y-abel" := by decide
  constructor
  · exact hsan
  · have hgp : getProductionLinkId globalProductions productionName
        = some productionName := by
      unfold getProductionLinkId
      rw [if_pos (by simpa using hres)]
    show (match getProductionLinkId globalProductions productionName with
        | some productionId => productionId
        | none => "undefined") ++ "-" ++ sanitizeLinkText "My Label"
      = productionName ++ "-" ++ "-y-abel"
    rw [hgp, hsan]

/-- Witness for C5 at a concrete resolvable owning production `P`. -/
theorem c5_manual_link_reference_link_id_witness :
    getRightHandSideLinkId ["P"] "P" ⟨some "My Label", none⟩ false = "-y-abel"
    ∧ getRightHandSideLinkId ["P"] "P" ⟨some "My Label", none⟩ true
      = "P" ++ "-" ++ "-y-abel" :=
  c5_manual_link_reference_link_id ["P"] "P" none (by decide)

/-- The sixteen lowercase hexadecimal digit characters, `0` through `9` and
`a` through `f` (the values of `hexDigit` on `0..15`). -/
def hexDigits : List Char :=
  (List.range 16).map hexDigit

theorem hexDigit_mem (m : Nat) : hexDigit (m % 16) ∈ hexDigits := by
  have h : m % 16 < 16 := Nat.mod_lt _ (by omega)
  exact List.mem_map_of_mem hexDigit (List.mem_range.mpr h)

theorem wordHexChars_length (x : Nat) : (wordHexChars x).length = 8 := rfl

theorem wordHexChars_subset (x : Nat) :
    ∀ c ∈ wordHexChars x, c ∈ hexDigits := by
  intro c hc
  simp only [wordHexChars, List.mem_cons, List.not_mem_nil, or_false] at hc
  rcases hc with rfl | rfl | rfl | rfl | rfl | rfl | rfl | rfl
  all_goals exact hexDigit_mem _

theorem sha1HexChars_length (msg : List Nat) :
    (sha1HexChars msg).length = 40 := by
  unfold sha1HexChars
  simp only [List.length_append, wordHexChars_length]

theorem sha1HexChars_subset (msg : List Nat) :
    ∀ c ∈ sha1HexChars msg, c ∈ hexDigits := by
  intro c hc
  unfold sha1HexChars at hc
  simp only [List.mem_append] at hc
  rcases hc with ((((hc | hc) | hc) | hc) | hc)
  all_goals exact wordHexChars_subset _ c hc

/-- C6: for a right-hand side without an explicit label, the content-derived
identifier equals the lowercase hexadecimal SHA-1 digest of the canonical
serialization of the alternative head symbol span truncated to exactly 8
characters (`digest.substr(0, 8)`); it is exactly 8 characters long, each a
lowercase hex digit, and it is a deterministic function of the canonical
text: any alternative with the same canonical content yields the identical
8-character string. -/
theorem c6_digest_deterministic_8_hex (node : RightHandSide) :
    computeHash node
      = String.mk ((sha1HexChars (utf8Encode (canonicalText node))).take 8)
    ∧ (computeHash node).length = 8
    ∧ (∀ c ∈ (computeHash node).data, c ∈ hexDigits)
    ∧ (∀ node2 : RightHandSide, canonicalText node2 = canonicalText node →
        computeHash node2 = computeHash node) := by
  refine ⟨rfl, ?_, ?_, ?_⟩
  · show (String.mk
      ((sha1HexChars (utf8Encode (canonicalText node))).take 8)).length = 8
    have hlen := sha1HexChars_length (utf8Encode (canonicalText node))
    simp only [String.length, List.length_take, hlen]
    omega
  · intro c hc
    have hc2 : c ∈ (sha1HexChars (utf8Encode (canonicalText node))).take 8 := hc
    exact sha1HexChars_subset _ c (List.mem_of_mem_take hc2)
  · intro node2 h2
    unfold computeHash
    rw [h2]

/-- Witness for C6 at a concrete alternative consisting of the terminal
symbol `var`. -/
theorem c6_digest_deterministic_8_hex_witness :
    computeHash ⟨none, some (DNode.terminal "var" none)⟩
      = computeHash ⟨none, some (DNode.terminal "var" none)⟩
    ∧ (computeHash ⟨none, some (DNode.terminal "var" none)⟩).length = 8 :=
  ⟨(c6_digest_deterministic_8_hex
      ⟨none, some (DNode.terminal "var" none)⟩).2.2.2
      ⟨none, some (DNode.terminal "var" none)⟩ rfl,
    (c6_digest_deterministic_8_hex
      ⟨none, some (DNode.terminal "var" none)⟩).2.1⟩
